import Mathlib

/-!
# Verification of the spatial-memory / semantic-validation subsystem

Shallow embedding of the Python sources:
* `src/agent/semantic_validator.py` (geometry kernel + validator),
* `src/state/memory.py` (canvas memory),
* `src/main_loop.py` (`DrawingSystem._validate_and_repair`),
* `src/execution/coordinate_mapper.py` (coordinate normalizer).

Python floats are modelled as exact rationals (`ℚ`); the one genuinely real
operation, the square root in `_compute_distance`, is modelled with
`Real.sqrt`.  Python dictionaries are modelled as insertion-ordered
association lists, matching CPython's ordered-dict semantics.
-/

namespace Spec2Proof

/-! ## Geometry kernel (`semantic_validator.py`, `BoundingBox` and helpers) -/

/-- `BoundingBox` dataclass from `semantic_validator.py`. -/
structure BoundingBox where
  min_x : ℚ
  max_x : ℚ
  min_y : ℚ
  max_y : ℚ
  center_x : ℚ
  center_y : ℚ
  width : ℚ
  height : ℚ
  deriving DecidableEq, Repr

/-- `BoundingBox.from_points`: zero box for an empty point list, otherwise
per-axis min/max with midpoint center and max−min extents. -/
def BoundingBox.from_points : List (ℚ × ℚ) → BoundingBox
  | [] => ⟨0, 0, 0, 0, 0, 0, 0, 0⟩
  | p :: ps =>
    let xs := (p :: ps).map Prod.fst
    let ys := (p :: ps).map Prod.snd
    let min_x := xs.foldl min p.1
    let max_x := xs.foldl max p.1
    let min_y := ys.foldl min p.2
    let max_y := ys.foldl max p.2
    ⟨min_x, max_x, min_y, max_y, (min_x + max_x) / 2, (min_y + max_y) / 2,
      max_x - min_x, max_y - min_y⟩

/-- `SemanticValidator._compute_overlap_ratio`: intersection area over union
area of two axis-aligned boxes, 0 when the union is non-positive. -/
def compute_overlap_ratio (box1 box2 : BoundingBox) : ℚ :=
  let x_overlap := max 0 (min box1.max_x box2.max_x - max box1.min_x box2.min_x)
  let y_overlap := max 0 (min box1.max_y box2.max_y - max box1.min_y box2.min_y)
  let intersection := x_overlap * y_overlap
  let area1 := box1.width * box1.height
  let area2 := box2.width * box2.height
  let union := area1 + area2 - intersection
  if union ≤ 0 then 0 else intersection / union

/-- Per-axis gaps computed by `SemanticValidator._compute_distance` in its
non-overlapping branches (the pair `(x_dist, y_dist)` of the source). -/
def distance_gaps (box1 box2 : BoundingBox) : ℚ × ℚ :=
  let x_overlap := min box1.max_x box2.max_x - max box1.min_x box2.min_x
  let y_overlap := min box1.max_y box2.max_y - max box1.min_y box2.min_y
  if 0 < x_overlap then
    (0, max 0 (max box1.min_y box2.min_y - min box1.max_y box2.max_y))
  else if 0 < y_overlap then
    (max 0 (max box1.min_x box2.min_x - min box1.max_x box2.max_x), 0)
  else
    (max 0 (max box1.min_x box2.min_x - min box1.max_x box2.max_x),
     max 0 (max box1.min_y box2.min_y - min box1.max_y box2.max_y))

/-- `SemanticValidator._compute_distance`: 0 when the boxes overlap on both
axes, otherwise the Euclidean combination of the per-axis gaps. -/
noncomputable def compute_distance (box1 box2 : BoundingBox) : ℝ :=
  let x_overlap := min box1.max_x box2.max_x - max box1.min_x box2.min_x
  let y_overlap := min box1.max_y box2.max_y - max box1.min_y box2.min_y
  if 0 < x_overlap ∧ 0 < y_overlap then 0
  else
    let g := distance_gaps box1 box2
    Real.sqrt ((g.1 ^ 2 + g.2 ^ 2 : ℚ))

/-- Value stored in an anchors dictionary: a 2-D point, a scalar, or opaque
plan metadata (the source stores arbitrary Python values there). -/
inductive AnchorVal where
  | point (p : ℚ × ℚ)
  | scalar (q : ℚ)
  | raw (s : String)
  deriving DecidableEq, Repr

/-! ## Validation issues and score -/

/-- `ValidationIssue` dataclass. -/
structure ValidationIssue where
  severity : String
  category : String
  description : String
  affected_strokes : List ℕ
  deriving DecidableEq, Repr

/-- `ValidationResult` dataclass. -/
structure ValidationResult where
  valid : Bool
  score : ℚ
  issues : List ValidationIssue
  deriving Repr

/-- Number of error-severity issues in a list. -/
def errorCount (issues : List ValidationIssue) : ℕ :=
  issues.countP (fun i => i.severity == "error")

/-- Number of warning-severity issues in a list. -/
def warningCount (issues : List ValidationIssue) : ℕ :=
  issues.countP (fun i => i.severity == "warning")

/-- Loop body of `SemanticValidator._calculate_score`. -/
def scoreStep (score : ℚ) (issue : ValidationIssue) : ℚ :=
  if issue.severity == "error" then score - 3/10
  else if issue.severity == "warning" then score - 1/10
  else score

/-- `SemanticValidator._calculate_score`: start at 1.0, subtract 0.3 per
error and 0.1 per warning, floor at 0.0 (the floor is applied once, to the
final sum, as in the source). -/
def calculate_score (issues : List ValidationIssue) : ℚ :=
  if issues.isEmpty then 1
  else max 0 (issues.foldl scoreStep 1)

/-! ## String helpers used by the validator and the canvas memory -/

/-- Whether the character list `pat` occurs at the start of `s`. -/
def startsWithChars : List Char → List Char → Bool
  | [], _ => true
  | _ :: _, [] => false
  | p :: ps, c :: cs => p == c && startsWithChars ps cs

/-- Whether `pat` occurs somewhere inside `s` (Python's `pat in s`). -/
def containsChars (pat : List Char) : List Char → Bool
  | [] => startsWithChars pat []
  | c :: cs => startsWithChars pat (c :: cs) || containsChars pat cs

/-- Python `pat in s` on strings. -/
def strContains (s pat : String) : Bool := containsChars pat.toList s.toList

/-- Python `s.lower()` (ASCII-level model). -/
def lowerStr (s : String) : String := String.mk (s.toList.map Char.toLower)

/-- Python `labels.get(key, default)` over an insertion-ordered dict. -/
def dictGet (labels : List (String × String)) (key default : String) : String :=
  match labels.lookup key with
  | some v => v
  | none => default

/-- Label shown in issue descriptions:
`labels.get(f"stroke_{i}", f"stroke {i}")`. -/
def labelOrDefault (labels : List (String × String)) (i : ℕ) : String :=
  dictGet labels ("stroke_" ++ toString i) ("stroke " ++ toString i)

/-! ## The five validator checks -/

/-- Ordered pairs (i, j) with i < j, in the source's iteration order. -/
def orderedPairs {α : Type} : List α → List (α × α)
  | [] => []
  | x :: xs => xs.map (fun y => (x, y)) ++ orderedPairs xs

/-- `SemanticValidator._check_overlaps`: pairwise (i<j) overlap ratio above
the configured maximum is an error. -/
def check_overlaps (max_overlap_ratio : ℚ) (boxes : List BoundingBox)
    (labels : List (String × String)) : List ValidationIssue :=
  (orderedPairs boxes.enum).flatMap (fun p =>
    let (i, box1) := p.1
    let (j, box2) := p.2
    if max_overlap_ratio < compute_overlap_ratio box1 box2 then
      [⟨"error", "overlap",
        labelOrDefault labels i ++ " and " ++ labelOrDefault labels j
          ++ " overlap", [i, j]⟩]
    else [])

/-- Expected spacing inferred from the instruction text
(`_check_spacing`, first half); `none` means no spacing constraint. -/
def expectedSpacing (instruction : String) : Option ℚ :=
  let instr := lowerStr instruction
  if strContains instr "much further" || strContains instr "far" then some (3/10)
  else if strContains instr "beside" || strContains instr "next to" then some (1/10)
  else if strContains instr "to the left" || strContains instr "to the right" then
    some (15/100)
  else none

open Classical in
/-- `SemanticValidator._check_spacing`, second half.  The source starts the
running minimum at `float('inf')`; for an empty `existing_boxes` list that
infinite minimum fails the `< min_spacing` test and triggers the deviation
warning, which the empty branch below reproduces. -/
noncomputable def check_spacing (min_spacing : ℚ) (new_boxes existing_boxes : List BoundingBox)
    (labels : List (String × String)) (instruction : String) : List ValidationIssue :=
  match expectedSpacing instruction with
  | none => []
  | some expected =>
    new_boxes.enum.flatMap (fun p =>
      let (i, new_box) := p
      match existing_boxes with
      | [] =>
        [⟨"warning", "spacing",
          labelOrDefault labels i ++ " spacing may not match instruction '"
            ++ instruction ++ "'", [i]⟩]
      | e :: es =>
        let min_distance : ℝ :=
          es.foldl (fun acc b => min acc (compute_distance new_box b))
            (compute_distance new_box e)
        if min_distance < (min_spacing : ℝ) then
          [⟨"error", "spacing",
            labelOrDefault labels i ++ " too close to existing object", [i]⟩]
        else if (expected : ℝ) * (1/2) < |min_distance - (expected : ℝ)| then
          [⟨"warning", "spacing",
            labelOrDefault labels i ++ " spacing may not match instruction '"
              ++ instruction ++ "'", [i]⟩]
        else [])

/-- Lexicographic comparison on (area, index), matching Python's tuple
ordering used by `sizes.sort(reverse=True)`. -/
def sizeLt (a b : ℚ × ℕ) : Prop := a.1 < b.1 ∨ (a.1 = b.1 ∧ a.2 < b.2)

instance : DecidablePred (fun p : (ℚ × ℕ) × (ℚ × ℕ) => sizeLt p.1 p.2) := by
  intro p; unfold sizeLt; infer_instance

instance (a b : ℚ × ℕ) : Decidable (sizeLt a b) := by
  unfold sizeLt; infer_instance

/-- `SemanticValidator._check_ratios`: with ≥ 2 boxes, compare the
lexicographically largest and smallest (area, index) pairs; a positive-area
ratio above 100 is an error.  `sizes[0]` / `sizes[-1]` of the reverse-sorted
list are the lexicographic max / min. -/
def check_ratios (boxes : List BoundingBox) (labels : List (String × String)) :
    List ValidationIssue :=
  if boxes.length < 2 then []
  else
    let sizes := boxes.enum.map (fun p => (p.2.width * p.2.height, p.1))
    match sizes with
    | [] => []
    | s0 :: rest =>
      let largest := rest.foldl (fun p q => if sizeLt p q then q else p) s0
      let smallest := rest.foldl (fun p q => if sizeLt q p then q else p) s0
      if 0 < largest.1 ∧ 0 < smallest.1 ∧ 100 < largest.1 / smallest.1 then
        [⟨"error", "ratio",
          labelOrDefault labels largest.2 ++ " is much larger than "
            ++ labelOrDefault labels smallest.2 ++ " - extreme size difference",
          [largest.2, smallest.2]⟩]
      else []

/-- Python `label.split('_')[0]`: the part of the label before the first
underscore (the whole label when it has none). -/
def baseLabel (s : String) : String := String.mk (s.toList.takeWhile (· ≠ '_'))

/-- `int(key.split('_')[-1]) if '_' in key else int(key)` — stroke index
encoded in a labels-dict key.  The source raises `ValueError` on a
non-numeric key; such keys are skipped here (unreachable for the
`stroke_<i>` / `<i>` keys the system produces). -/
def parseStrokeIdx (key : String) : Option ℕ :=
  if key.toList.contains '_' then
    (String.mk ((key.toList.reverse.takeWhile (· ≠ '_')).reverse)).toNat?
  else key.toNat?

/-- One entry of a symmetry group: (stroke index, label, box if in range). -/
abbrev GroupEntry : Type := ℕ × String × Option BoundingBox

/-- Append an entry to the group of `base`, keeping dict insertion order. -/
def insertGroup (groups : List (String × List GroupEntry)) (base : String)
    (entry : GroupEntry) : List (String × List GroupEntry) :=
  match groups with
  | [] => [(base, [entry])]
  | (b, es) :: rest =>
    if b == base then (b, es ++ [entry]) :: rest
    else (b, es) :: insertGroup rest base entry

/-- Grouping of labels by base name (`_check_pair_symmetry`, first half). -/
def buildGroups (labels : List (String × String)) (boxes : List BoundingBox) :
    List (String × List GroupEntry) :=
  labels.foldl (fun groups kv =>
    let (key, label) := kv
    if label.isEmpty then groups
    else
      match parseStrokeIdx key with
      | none => groups
      | some idx => insertGroup groups (baseLabel label) (idx, label, boxes.get? idx))
    []

/-- Issues for one group of exactly two entries
(`_check_pair_symmetry`, second half). -/
def pairIssues (entry1 entry2 : GroupEntry) : List ValidationIssue :=
  let (idx1, label1, obox1) := entry1
  let (idx2, label2, obox2) := entry2
  match obox1, obox2 with
  | some box1, some box2 =>
    let size1 := box1.width * box1.height
    let size2 := box2.width * box2.height
    (if 0 < size1 ∧ 0 < size2 ∧ 2 < max size1 size2 / min size1 size2 then
      [⟨"warning", "symmetry",
        label1 ++ " and " ++ label2 ++ " have very different sizes",
        [idx1, idx2]⟩]
    else [])
    ++ (if 1/100 < min box1.max_x box2.max_x - max box1.min_x box2.min_x then
      [⟨"error", "symmetry",
        label1 ++ " and " ++ label2
          ++ " overlap horizontally - should be on different sides",
        [idx1, idx2]⟩]
    else [])
    ++ (if max box1.height box2.height * (1/2) < |box1.center_y - box2.center_y| then
      [⟨"warning", "symmetry",
        label1 ++ " and " ++ label2 ++ " not aligned vertically",
        [idx1, idx2]⟩]
    else [])
  | _, _ => []

/-- `SemanticValidator._check_pair_symmetry`.  (The source also reads
`anchors["plan"]` and `anchors["components"]` into local variables but never
uses them, so the anchors map does not influence the result.) -/
def check_pair_symmetry (boxes : List BoundingBox)
    (labels : List (String × String)) (anchors : List (String × AnchorVal)) :
    List ValidationIssue :=
  (buildGroups labels boxes).flatMap (fun g =>
    match g.2 with
    | [e1, e2] => pairIssues e1 e2
    | _ => [])

/-- `SemanticValidator._check_sizes`: warn on area < 0.5% or > 80% of the
canvas. -/
def check_sizes (boxes : List BoundingBox) (labels : List (String × String)) :
    List ValidationIssue :=
  boxes.enum.flatMap (fun p =>
    let (i, box) := p
    let size := box.width * box.height
    (if size < 1/200 then
      [⟨"warning", "size", labelOrDefault labels i ++ " very small", [i]⟩]
    else [])
    ++ (if 4/5 < size then
      [⟨"warning", "size", labelOrDefault labels i ++ " very large", [i]⟩]
    else []))

/-! ## `SemanticValidator.validate` -/

/-- `SemanticValidator.validate`.  `min_spacing` and `max_overlap_ratio` are
the constructor parameters (defaults 0.05 and 0.1).  The `anchors` argument
is threaded through as in the source, where `_check_pair_symmetry` reads but
never uses it.  The spacing check runs only when both `existing_strokes` and
`instruction` are truthy. -/
noncomputable def validate (min_spacing max_overlap_ratio : ℚ)
    (strokes : List (List (ℚ × ℚ))) (labels : List (String × String))
    (anchors : List (String × AnchorVal))
    (existing_strokes : List (List (ℚ × ℚ))) (instruction : String) :
    ValidationResult :=
  if strokes.isEmpty then ⟨true, 1, []⟩
  else
    let new_boxes := strokes.map BoundingBox.from_points
    let existing_boxes := existing_strokes.map BoundingBox.from_points
    let issues :=
      check_overlaps max_overlap_ratio new_boxes labels
      ++ (if existing_strokes.isEmpty || instruction.isEmpty then []
          else check_spacing min_spacing new_boxes existing_boxes labels instruction)
      ++ (if 1 < strokes.length then check_ratios new_boxes labels else [])
      ++ check_pair_symmetry new_boxes labels anchors
      ++ check_sizes new_boxes labels
    let score := calculate_score issues
    let valid := decide ((7:ℚ)/10 ≤ score)
      && !(issues.any (fun issue => issue.severity == "error"))
    ⟨valid, score, issues⟩

/-- Candidate made of four single-point strokes.  Each stroke's bounding box
has zero area, so every stroke triggers only the "very small" size warning:
validation yields four warnings, no errors, score 0.6 and `valid == False`. -/
def fourPointStrokes : List (List (ℚ × ℚ)) :=
  [[(0, 0)], [(1/4, 1/4)], [(1/2, 1/2)], [(3/4, 3/4)]]

/-- A unit box fully overlapping itself. -/
def unitBox : BoundingBox := ⟨0, 1, 0, 1, 1/2, 1/2, 1, 1⟩

/-! ## Repair loop (`main_loop.py`, `DrawingSystem._validate_and_repair`) -/

/-- `LLMResponse` dataclass from `llm_wrapper.py` (the fields the repair
loop reads). -/
structure LLMResponse where
  strokes : List (List (ℚ × ℚ))
  anchors : List (String × AnchorVal)
  labels : List (String × String)
  assistant_message : String
  deriving DecidableEq, Repr

/-- Best-candidate tracking step of the repair loop: replace the running
best only on a strictly higher score. -/
def bestStep (score : LLMResponse → ℚ) (p : LLMResponse × ℚ) (a : LLMResponse) :
    LLMResponse × ℚ :=
  if p.2 < score a then (a, score a) else p

/-- The iteration structure of `_validate_and_repair`.  `vf` is the bound
validation call (`self.validator.validate` applied to the current memory),
`gen k` the result of the `k`-th repair regeneration call (`none` models the
`except Exception` branch: the call raised and the loop breaks).  Arguments:
current iteration index, remaining loop iterations (`max_iterations + 1 -
iteration`), current response, best response and best score so far.
Returns the response the loop returns plus the number of validation calls
performed. -/
def repairAux (vf : LLMResponse → ValidationResult) (gen : ℕ → Option LLMResponse)
    (maxIter : ℕ) : ℕ → ℕ → LLMResponse → LLMResponse → ℚ → LLMResponse × ℕ
  | _, 0, _, bestR, _ => (bestR, 0)
  | iteration, fuel + 1, response, bestR, bestScore =>
    let validation := vf response
    let best := bestStep (fun a => (vf a).score) (bestR, bestScore) response
    if validation.valid then (response, 1)
    else if iteration < maxIter then
      match gen iteration with
      | some regenerated =>
        let rest := repairAux vf gen maxIter (iteration + 1) fuel regenerated best.1 best.2
        (rest.1, rest.2 + 1)
      | none => (best.1, 1)
    else (best.1, 1)

/-- `DrawingSystem._validate_and_repair`: starts with `best_response =
response`, `best_score = 0.0` and runs `for iteration in
range(max_iterations + 1)`. -/
def validateAndRepair (vf : LLMResponse → ValidationResult)
    (gen : ℕ → Option LLMResponse) (response : LLMResponse)
    (max_iterations : ℕ) : LLMResponse × ℕ :=
  repairAux vf gen max_iterations 0 (max_iterations + 1) response response 0

/-- The sequence of candidates the loop actually validates ("attempts"),
in order: the initial response, then each successfully regenerated
candidate, stopping after a valid attempt, a failed regeneration, or
iteration exhaustion. -/
def attemptsAux (vf : LLMResponse → ValidationResult) (gen : ℕ → Option LLMResponse)
    (maxIter : ℕ) : ℕ → ℕ → LLMResponse → List LLMResponse
  | _, 0, _ => []
  | iteration, fuel + 1, response =>
    response ::
      (if (vf response).valid then []
       else if iteration < maxIter then
         match gen iteration with
         | some regenerated => attemptsAux vf gen maxIter (iteration + 1) fuel regenerated
         | none => []
       else [])

/-- The attempts validated by `validateAndRepair`. -/
def validatedAttempts (vf : LLMResponse → ValidationResult)
    (gen : ℕ → Option LLMResponse) (response : LLMResponse)
    (max_iterations : ℕ) : List LLMResponse :=
  attemptsAux vf gen max_iterations 0 (max_iterations + 1) response

/-- `r` is the earliest element of `l` attaining the maximal score. -/
def IsEarliestMax (score : LLMResponse → ℚ) (l : List LLMResponse)
    (r : LLMResponse) : Prop :=
  ∃ k, l.get? k = some r
    ∧ (∀ a ∈ l.take k, score a < score r)
    ∧ ∀ a ∈ l, score a ≤ score r

/-! ## Canvas memory (`state/memory.py`) -/

/-- `Stroke` dataclass: id, normalized points, optional label, lifecycle
state ("preview" or "confirmed"). -/
structure Stroke where
  id : ℕ
  points : List (ℚ × ℚ)
  label : Option String
  state : String
  deriving DecidableEq, Repr

/-- Value of the `features` dict: `{"stroke_ids": [...], "anchors": {...}}`. -/
structure FeatureData where
  stroke_ids : List ℕ
  anchors : List (String × AnchorVal)
  deriving DecidableEq, Repr

/-- `DrawingMemory` dataclass.  `next_stroke_id` models `_next_stroke_id`. -/
structure DrawingMemory where
  strokes_history : List Stroke
  features : List (String × FeatureData)
  anchors : List (String × AnchorVal)
  last_position : ℚ × ℚ
  stop_flag : Bool
  next_stroke_id : ℕ
  last_question : Option String
  deriving DecidableEq, Repr

/-- A fresh `DrawingMemory()` with the source's dataclass defaults. -/
def DrawingMemory.empty : DrawingMemory := ⟨[], [], [], (1/2, 1/2), false, 0, none⟩

/-- Python truthiness on an optional string (`None` and `""` are falsy). -/
def truthyStr : Option String → Option String
  | some s => if s.isEmpty then none else some s
  | none => none

/-- `labels.get(f"stroke_{i}") or labels.get(str(i)) or None`. -/
def labelFor (labels : List (String × String)) (i : ℕ) : Option String :=
  match truthyStr (labels.lookup ("stroke_" ++ toString i)) with
  | some s => some s
  | none => truthyStr (labels.lookup (toString i))

/-- Whether a stored stroke has a truthy label with base `b` (the predicate
counted by the `shape_counts` scan in `add_strokes`). -/
def strokeHasBase (b : String) (s : Stroke) : Bool :=
  match s.label with
  | some l => !l.isEmpty && baseLabel l == b
  | none => false

/-- Number of strokes in `history` whose truthy label has base `b`. -/
def countBase (history : List Stroke) (b : String) : ℕ :=
  (history.filter (strokeHasBase b)).length

/-- One step of the `shape_counts` scan over the existing history. -/
def countsStep (counts : String → ℕ) (s : Stroke) : String → ℕ :=
  match s.label with
  | some l =>
    if l.isEmpty then counts
    else fun b => if b = baseLabel l then counts b + 1 else counts b
  | none => counts

/-- The `shape_counts` dict built at the top of `add_strokes`. -/
def initialCounts (history : List Stroke) : String → ℕ :=
  history.foldl countsStep (fun _ => 0)

/-- Label numbering in `add_strokes`: `f"{base}_{count+1}"` when the base
was seen before, `f"{base}_1"` otherwise (the two branches coincide). -/
def numberedLabel (base : String) (count : ℕ) : String :=
  if 0 < count then base ++ "_" ++ toString (count + 1)
  else base ++ "_1"

/-- Python `label.split('_')[-1]`: the part after the last underscore. -/
def afterLastUnderscore (s : String) : String :=
  String.mk ((s.toList.reverse.takeWhile (· ≠ '_')).reverse)

/-- Python `'_'.join(label.split('_')[:-1])`: everything before the last
underscore (meaningful only when the label contains one). -/
def beforeLastUnderscore (s : String) : String :=
  String.mk (((s.toList.reverse.dropWhile (· ≠ '_')).drop 1).reverse)

/-- Python `s.isdigit()`: nonempty and all digits. -/
def isDigits (s : String) : Bool := !s.isEmpty && s.toList.all Char.isDigit

/-- `if key not in self.anchors: self.anchors[key] = value` (dict insertion
order: a fresh key is appended at the end). -/
def insertAnchorIfAbsent (anchors : List (String × AnchorVal))
    (kv : String × AnchorVal) : List (String × AnchorVal) :=
  if (anchors.lookup kv.1).isSome then anchors else anchors ++ [kv]

/-- `DrawingMemory._auto_generate_side_anchors`: derive the nine side
anchors from the stroke's bounding box and store each only when its name is
not already present. -/
def auto_generate_side_anchors (m : DrawingMemory) (stroke : Stroke)
    (label : String) : DrawingMemory :=
  match stroke.points with
  | [] => m
  | p :: ps =>
    let xs := (p :: ps).map Prod.fst
    let ys := (p :: ps).map Prod.snd
    let min_x := xs.foldl min p.1
    let max_x := xs.foldl max p.1
    let min_y := ys.foldl min p.2
    let max_y := ys.foldl max p.2
    let center_x := (min_x + max_x) / 2
    let center_y := (min_y + max_y) / 2
    let bn_sn : String × String :=
      if label.toList.contains '_' && isDigits (afterLastUnderscore label) then
        (beforeLastUnderscore label, afterLastUnderscore label)
      else (label, "1")
    let stem := bn_sn.1 ++ "_" ++ bn_sn.2
    let side_anchors : List (String × AnchorVal) :=
      [(stem ++ "_center", .point (center_x, center_y)),
       (stem ++ "_top", .point (center_x, max_y)),
       (stem ++ "_bottom", .point (center_x, min_y)),
       (stem ++ "_left", .point (min_x, center_y)),
       (stem ++ "_right", .point (max_x, center_y)),
       (stem ++ "_top_left", .point (min_x, max_y)),
       (stem ++ "_top_right", .point (max_x, max_y)),
       (stem ++ "_bottom_left", .point (min_x, min_y)),
       (stem ++ "_bottom_right", .point (max_x, min_y))]
    { m with anchors := side_anchors.foldl insertAnchorIfAbsent m.anchors }

/-- The numbered label stored for the `i`-th stroke of a batch
(`add_strokes` loop body, labelling part): base taken before the first
underscore, suffix `count + 1` from the threaded `shape_counts`. -/
def storedLabel (labels : List (String × String)) (counts : String → ℕ)
    (i : ℕ) : Option String :=
  match labelFor labels i with
  | some label =>
    let base := if label.toList.contains '_' then baseLabel label else label
    some (numberedLabel base (counts base))
  | none => none

/-- The `shape_counts` update performed for the `i`-th stroke of a batch. -/
def updatedCounts (labels : List (String × String)) (counts : String → ℕ)
    (i : ℕ) : String → ℕ :=
  match labelFor labels i with
  | some label =>
    let base := if label.toList.contains '_' then baseLabel label else label
    fun b => if b = base then counts b + 1 else counts b
  | none => counts

/-- `if points and label: self._auto_generate_side_anchors(stroke, label)`. -/
def afterAnchors (m1 : DrawingMemory) (stroke : Stroke) : DrawingMemory :=
  match stroke.points, stroke.label with
  | _ :: _, some label => auto_generate_side_anchors m1 stroke label
  | _, _ => m1

/-- `if points: self.last_position = points[-1]`. -/
def afterLastPos (m2 : DrawingMemory) (points : List (ℚ × ℚ)) : DrawingMemory :=
  match points.getLast? with
  | some p => { m2 with last_position := p }
  | none => m2

/-- One iteration of the `add_strokes` loop on the memory: append the
stroke (with its numbered label) and bump `_next_stroke_id`, derive side
anchors, update the last position. -/
def stepMemory (labels : List (String × String)) (state : String)
    (counts : String → ℕ) (m : DrawingMemory) (i : ℕ)
    (points : List (ℚ × ℚ)) : DrawingMemory :=
  let stroke : Stroke := ⟨m.next_stroke_id, points, storedLabel labels counts i, state⟩
  let m1 := { m with strokes_history := m.strokes_history ++ [stroke],
                     next_stroke_id := m.next_stroke_id + 1 }
  afterLastPos (afterAnchors m1 stroke) points

/-- Loop of `DrawingMemory.add_strokes`: threads the `shape_counts` dict,
appends each stroke with its numbered label, derives side anchors when the
stroke has points and a truthy label, and updates `last_position` to the
stroke's final point. -/
def addStrokesAux (labels : List (String × String)) (state : String) :
    (String → ℕ) → DrawingMemory → ℕ → List (List (ℚ × ℚ)) →
    DrawingMemory × List ℕ
  | _, m, _, [] => (m, [])
  | counts, m, i, points :: rest =>
    let res := addStrokesAux labels state (updatedCounts labels counts i)
      (stepMemory labels state counts m i points) (i + 1) rest
    (res.1, m.next_stroke_id :: res.2)

/-- `DrawingMemory.add_strokes`. -/
def DrawingMemory.add_strokes (m : DrawingMemory)
    (strokes : List (List (ℚ × ℚ))) (labels : List (String × String))
    (state : String) : DrawingMemory × List ℕ :=
  addStrokesAux labels state (initialCounts m.strokes_history) m 0 strokes

/-- One `self.strokes_history.pop()` with the feature-index cleanup of
`undo_last_strokes`. -/
def popOnce (m : DrawingMemory) : DrawingMemory :=
  match m.strokes_history.getLast? with
  | none => m
  | some stroke =>
    { m with strokes_history := m.strokes_history.dropLast,
             features := m.features.map (fun kv =>
               (kv.1, { kv.2 with stroke_ids := kv.2.stroke_ids.erase stroke.id })) }

/-- `DrawingMemory.undo_last_strokes`: pop `min count len` strokes, then
recompute `last_position` from the new tail (canvas-center default when the
history becomes empty; unchanged when the new tail has no points).
A Python caller passing `count <= 0` hits the early return, modelled by the
`count = 0` case. -/
def DrawingMemory.undo_last_strokes (m : DrawingMemory) (count : ℕ) :
    DrawingMemory :=
  if count = 0 then m
  else
    let removed := min count m.strokes_history.length
    let m1 := popOnce^[removed] m
    match m1.strokes_history.getLast? with
    | some s =>
      match s.points.getLast? with
      | some p => { m1 with last_position := p }
      | none => m1
    | none => { m1 with last_position := (1/2, 1/2) }

/-- `DrawingMemory.reject_preview_strokes`: drop all preview strokes, erase
their ids from every feature entry, return the removed count. -/
def DrawingMemory.reject_preview_strokes (m : DrawingMemory) :
    DrawingMemory × ℕ :=
  let preview := m.strokes_history.filter (fun s => s.state == "preview")
  let kept := m.strokes_history.filter (fun s => !(s.state == "preview"))
  let feats := preview.foldl (fun feats s =>
      feats.map (fun kv =>
        (kv.1, { kv.2 with stroke_ids := kv.2.stroke_ids.erase s.id })))
    m.features
  ({ m with strokes_history := kept, features := feats }, preview.length)

/-- One mutating memory operation (the operations claim C8 ranges over). -/
inductive MemOp where
  | add (strokes : List (List (ℚ × ℚ))) (labels : List (String × String))
      (state : String)
  | undo (count : ℕ)
  | reject

/-- Apply one operation; `add` returns the ids it assigned. -/
def applyOp (m : DrawingMemory) : MemOp → DrawingMemory × List ℕ
  | .add strokes labels state => m.add_strokes strokes labels state
  | .undo count => (m.undo_last_strokes count, [])
  | .reject => ((m.reject_preview_strokes).1, [])

/-- Run a sequence of operations, collecting every id `add_strokes`
returned, in order. -/
def runOps (m : DrawingMemory) : List MemOp → DrawingMemory × List ℕ
  | [] => (m, [])
  | op :: ops =>
    let r := applyOp m op
    let rest := runOps r.1 ops
    (rest.1, r.2 ++ rest.2)

/-! ## Serialization (`to_dict` / `from_dict`) -/

/-- The per-stroke dict emitted by `to_dict`: only id, points and label —
the lifecycle `state` field is not serialized. -/
structure StrokeDict where
  id : ℕ
  points : List (ℚ × ℚ)
  label : Option String
  deriving DecidableEq, Repr

/-- The dict emitted by `DrawingMemory.to_dict`. -/
structure MemoryDict where
  strokes_history : List StrokeDict
  features : List (String × FeatureData)
  anchors : List (String × AnchorVal)
  last_position : ℚ × ℚ
  stop_flag : Bool
  deriving DecidableEq, Repr

/-- `DrawingMemory.to_dict`. -/
def DrawingMemory.to_dict (m : DrawingMemory) : MemoryDict :=
  ⟨m.strokes_history.map (fun s => ⟨s.id, s.points, s.label⟩),
   m.features, m.anchors, m.last_position, m.stop_flag⟩

/-- `DrawingMemory.from_dict`: rebuilds the strokes with the dataclass
default state "confirmed" and recomputes `_next_stroke_id` as
`max(s.id) + 1` when the history is nonempty (0, the fresh default,
otherwise). -/
def DrawingMemory.from_dict (data : MemoryDict) : DrawingMemory :=
  let strokes := data.strokes_history.map
    (fun s => Stroke.mk s.id s.points s.label "confirmed")
  { strokes_history := strokes
    features := data.features
    anchors := data.anchors
    last_position := data.last_position
    stop_flag := data.stop_flag
    next_stroke_id :=
      match strokes.map Stroke.id with
      | [] => 0
      | i :: is => (is.foldl max i) + 1
    last_question := none }

/-- A memory holding one preview-state stroke (C4 counterexample input). -/
def previewMemory : DrawingMemory :=
  ⟨[⟨0, [(1/2, 1/2)], some "dot_1", "preview"⟩], [], [], (1/2, 1/2), false, 1, none⟩

/-! ## Coordinate normalizer (`execution/coordinate_mapper.py`) -/

/-- A coordinate as received from the generator: numeric, or some
non-numeric Python value (carrying an opaque tag). -/
inductive Coord where
  | num (q : ℚ)
  | nonNumeric (tag : String)
  deriving DecidableEq, Repr

/-- `CoordinateMapper.clamp_normalized`: clamp both axes into [0.0, 1.0]. -/
def clamp_normalized (x y : ℚ) : ℚ × ℚ :=
  (max 0 (min 1 x), max 0 (min 1 y))

/-- Inner loop of `validate_and_clamp_coordinates` over one stroke: a
non-numeric coordinate raises `ValueError` (the error message's interpolated
values are elided), a numeric pair is clamped. -/
def validateClampStroke : List (Coord × Coord) → Except String (List (ℚ × ℚ))
  | [] => Except.ok []
  | (Coord.num x, Coord.num y) :: rest =>
    match validateClampStroke rest with
    | Except.ok tail => Except.ok (clamp_normalized x y :: tail)
    | Except.error e => Except.error e
  | _ :: _ => Except.error "Invalid coordinate type"

/-- `validate_and_clamp_coordinates`. -/
def validate_and_clamp_coordinates :
    List (List (Coord × Coord)) → Except String (List (List (ℚ × ℚ)))
  | [] => Except.ok []
  | stroke :: rest =>
    match validateClampStroke stroke with
    | Except.error e => Except.error e
    | Except.ok vs =>
      match validate_and_clamp_coordinates rest with
      | Except.error e => Except.error e
      | Except.ok vrest => Except.ok (vs :: vrest)

/-- Whether a coordinate is numeric. -/
def numericCoord : Coord → Bool
  | .num _ => true
  | .nonNumeric _ => false

/-- Every coordinate of every stroke is numeric. -/
def allNumeric (strokes : List (List (Coord × Coord))) : Bool :=
  strokes.all (fun stroke =>
    stroke.all (fun c => numericCoord c.1 && numericCoord c.2))

/-- Embed purely numeric strokes into the `Coord` input type. -/
def numStrokes (strokes : List (List (ℚ × ℚ))) : List (List (Coord × Coord)) :=
  strokes.map (List.map (fun p => (Coord.num p.1, Coord.num p.2)))

/-! # Theorems -/

/-! ## Score arithmetic (`_calculate_score`) -/

theorem scoreStep_foldl (issues : List ValidationIssue) (s : ℚ) :
    issues.foldl scoreStep s
      = s - (3/10) * (errorCount issues : ℚ)
          - (1/10) * (warningCount issues : ℚ) := by
  induction issues generalizing s with
  | nil => simp [errorCount, warningCount]
  | cons i is ih =>
    rw [List.foldl_cons, ih]
    unfold scoreStep errorCount warningCount
    simp only [List.countP_cons]
    by_cases he : i.severity = "error"
    · simp [he]; ring
    · by_cases hw : i.severity = "warning"
      · simp [he, hw]; ring
      · simp [he, hw]

/-- Closed form for `_calculate_score`. -/
theorem calculate_score_closed (issues : List ValidationIssue) :
    calculate_score issues
      = max 0 (1 - (3/10) * (errorCount issues : ℚ)
                 - (1/10) * (warningCount issues : ℚ)) := by
  unfold calculate_score
  by_cases h : issues.isEmpty
  · have : issues = [] := by cases issues <;> simp_all
    subst this; simp [errorCount, warningCount]
  · rw [if_neg h, scoreStep_foldl]

/-! ## Facts about the score and validity (claim C1) -/

theorem errorCount_append (l1 l2 : List ValidationIssue) :
    errorCount (l1 ++ l2) = errorCount l1 + errorCount l2 := by
  unfold errorCount; simp [List.countP_append]

theorem warningCount_append (l1 l2 : List ValidationIssue) :
    warningCount (l1 ++ l2) = warningCount l1 + warningCount l2 := by
  unfold warningCount; simp [List.countP_append]

theorem any_error_eq_false_iff (issues : List ValidationIssue) :
    (issues.any (fun issue => issue.severity == "error")) = false
      ↔ errorCount issues = 0 := by
  unfold errorCount
  rw [List.any_eq_false, List.countP_eq_zero]

/-- The `valid` flag computed by `validate` agrees with
`score ≥ 0.7 ∧ no errors`. -/
theorem validate_valid_iff (min_spacing max_overlap_ratio : ℚ)
    (strokes : List (List (ℚ × ℚ))) (labels : List (String × String))
    (anchors : List (String × AnchorVal))
    (existing_strokes : List (List (ℚ × ℚ))) (instruction : String) :
    (validate min_spacing max_overlap_ratio strokes labels anchors
        existing_strokes instruction).valid = true
      ↔ ((7:ℚ)/10 ≤ (validate min_spacing max_overlap_ratio strokes labels anchors
            existing_strokes instruction).score
          ∧ errorCount (validate min_spacing max_overlap_ratio strokes labels anchors
              existing_strokes instruction).issues = 0) := by
  unfold validate
  by_cases h : strokes.isEmpty
  · simp [h, errorCount]; norm_num
  · simp only [h, Bool.false_eq_true, if_false, Bool.and_eq_true, decide_eq_true_eq,
      Bool.not_eq_true']
    rw [any_error_eq_false_iff]

/-- The score returned by `validate` has the closed form
`max 0 (1 − 0.3·errors − 0.1·warnings)`. -/
theorem validate_score_closed (min_spacing max_overlap_ratio : ℚ)
    (strokes : List (List (ℚ × ℚ))) (labels : List (String × String))
    (anchors : List (String × AnchorVal))
    (existing_strokes : List (List (ℚ × ℚ))) (instruction : String) :
    (validate min_spacing max_overlap_ratio strokes labels anchors
        existing_strokes instruction).score
      = max 0 (1
          - (3/10) * (errorCount (validate min_spacing max_overlap_ratio strokes labels
              anchors existing_strokes instruction).issues : ℚ)
          - (1/10) * (warningCount (validate min_spacing max_overlap_ratio strokes labels
              anchors existing_strokes instruction).issues : ℚ)) := by
  unfold validate
  by_cases h : strokes.isEmpty
  · simp [h, errorCount, warningCount]
  · simp only [h, Bool.false_eq_true, if_false]
    exact calculate_score_closed _

/-- C1 counterexample: a candidate with four warning-severity issues and
zero error-severity issues is invalid (score 0.6 < 0.7), so the claim's
"warnings alone never invalidate" conjunct is false on the code. -/
theorem claim1_counterexample :
    errorCount (validate (5/100) (1/10) fourPointStrokes [] [] [] "").issues = 0
    ∧ warningCount (validate (5/100) (1/10) fourPointStrokes [] [] [] "").issues = 4
    ∧ (validate (5/100) (1/10) fourPointStrokes [] [] [] "").valid = false := by
  have herr : errorCount (validate (5/100) (1/10) fourPointStrokes [] [] [] "").issues = 0 := by
    norm_num [validate, fourPointStrokes, check_overlaps, check_ratios, check_pair_symmetry,
      check_sizes, buildGroups, orderedPairs, BoundingBox.from_points,
      compute_overlap_ratio, labelOrDefault, dictGet, sizeLt, errorCount, List.countP,
      List.countP.go, List.enum, List.enumFrom, List.flatMap]
    decide
  have hwarn : warningCount (validate (5/100) (1/10) fourPointStrokes [] [] [] "").issues = 4 := by
    norm_num [validate, fourPointStrokes, check_overlaps, check_ratios, check_pair_symmetry,
      check_sizes, buildGroups, orderedPairs, BoundingBox.from_points,
      compute_overlap_ratio, labelOrDefault, dictGet, sizeLt, warningCount, List.countP,
      List.countP.go, List.enum, List.enumFrom, List.flatMap]
  have hscore := validate_score_closed (5/100) (1/10) fourPointStrokes [] [] [] ""
  rw [herr, hwarn] at hscore
  refine ⟨herr, hwarn, ?_⟩
  rw [Bool.eq_false_iff]
  intro hvalid
  have h7 := ((validate_valid_iff (5/100) (1/10) fourPointStrokes [] [] [] "").mp hvalid).1
  rw [hscore] at h7
  norm_num at h7

/-- C1 (amended): for every run of `validate`, the score equals
`max 0 (1 − 0.3·errors − 0.1·warnings)`; `valid` is true iff the score is
≥ 0.7 and there are zero error-severity issues; hence valid implies no
errors, and with zero errors up to three warnings never invalidate (but
four or more warnings push the score below 0.7 and do invalidate, so
"warnings alone never invalidate" holds only up to three warnings).
Adding one error-severity issue to any issue list decreases the score by
exactly 0.3, and one warning-severity issue by exactly 0.1, until the
floor at 0.0. -/
theorem claim1_score_and_validity (min_spacing max_overlap_ratio : ℚ)
    (strokes : List (List (ℚ × ℚ))) (labels : List (String × String))
    (anchors : List (String × AnchorVal))
    (existing_strokes : List (List (ℚ × ℚ))) (instruction : String)
    (l : List ValidationIssue) (iss : ValidationIssue) (r : ValidationResult)
    (hr : r = validate min_spacing max_overlap_ratio strokes labels anchors
        existing_strokes instruction) :
    r.score = max 0 (1 - (3/10) * (errorCount r.issues : ℚ)
        - (1/10) * (warningCount r.issues : ℚ))
    ∧ (r.valid = true ↔ ((7:ℚ)/10 ≤ r.score ∧ errorCount r.issues = 0))
    ∧ (r.valid = true → errorCount r.issues = 0)
    ∧ (errorCount r.issues = 0 → warningCount r.issues ≤ 3 → r.valid = true)
    ∧ (iss.severity = "error" → (3:ℚ)/10 ≤ calculate_score l →
        calculate_score (l ++ [iss]) = calculate_score l - 3/10)
    ∧ (iss.severity = "warning" → (1:ℚ)/10 ≤ calculate_score l →
        calculate_score (l ++ [iss]) = calculate_score l - 1/10) := by
  subst hr
  refine ⟨validate_score_closed _ _ _ _ _ _ _,
    validate_valid_iff _ _ _ _ _ _ _,
    fun h => ((validate_valid_iff _ _ _ _ _ _ _).mp h).2, ?_, ?_, ?_⟩
  · intro herr hwarn
    rw [validate_valid_iff]
    refine ⟨?_, herr⟩
    rw [validate_score_closed, herr]
    have hw : ((warningCount (validate min_spacing max_overlap_ratio strokes labels anchors
        existing_strokes instruction).issues : ℚ)) ≤ 3 := by exact_mod_cast hwarn
    have : (7:ℚ)/10 ≤ 1 - (3/10) * ((0:ℕ) : ℚ)
        - (1/10) * (warningCount (validate min_spacing max_overlap_ratio strokes labels
            anchors existing_strokes instruction).issues : ℚ) := by
      push_cast
      linarith
    exact le_max_of_le_right this
  · intro hsev hge
    have he1 : errorCount [iss] = 1 := by simp [errorCount, hsev]
    have hw1 : warningCount [iss] = 0 := by simp [warningCount, hsev]
    rw [calculate_score_closed] at hge
    rw [calculate_score_closed, calculate_score_closed,
      errorCount_append, warningCount_append, he1, hw1]
    push_cast
    have hA : (3:ℚ)/10 ≤ 1 - (3/10) * (errorCount l : ℚ)
        - (1/10) * (warningCount l : ℚ) := by
      by_contra hcon
      push_neg at hcon
      have hm : max 0 (1 - (3/10) * (errorCount l : ℚ)
          - (1/10) * (warningCount l : ℚ)) < 3/10 :=
        max_lt (by norm_num) hcon
      linarith
    rw [max_eq_right (by linarith), max_eq_right (by linarith)]
    ring
  · intro hsev hge
    have he1 : errorCount [iss] = 0 := by simp [errorCount, hsev]
    have hw1 : warningCount [iss] = 1 := by simp [warningCount, hsev]
    rw [calculate_score_closed] at hge
    rw [calculate_score_closed, calculate_score_closed,
      errorCount_append, warningCount_append, he1, hw1]
    push_cast
    have hA : (1:ℚ)/10 ≤ 1 - (3/10) * (errorCount l : ℚ)
        - (1/10) * (warningCount l : ℚ) := by
      by_contra hcon
      push_neg at hcon
      have hm : max 0 (1 - (3/10) * (errorCount l : ℚ)
          - (1/10) * (warningCount l : ℚ)) < 1/10 :=
        max_lt (by norm_num) hcon
      linarith
    rw [max_eq_right (by linarith), max_eq_right (by linarith)]
    ring

/-- Witness for C1's theorem at concrete inputs. -/
theorem claim1_witness :
    calculate_score ([] ++ [⟨"error", "overlap", "d", []⟩]) = calculate_score [] - 3/10 :=
  (claim1_score_and_validity (5/100) (1/10) [] [] [] [] "" []
      ⟨"error", "overlap", "d", []⟩ _ rfl).2.2.2.2.1 rfl
    (by norm_num [calculate_score])

/-! ## Claim C9: overlap forces zero distance -/

/-- C9: for all bounding boxes, a strictly positive overlap ratio forces the
minimum distance to be exactly 0, and the minimum distance is always ≥ 0. -/
theorem claim9_overlap_zero_distance (a b : BoundingBox) :
    (0 < compute_overlap_ratio a b → compute_distance a b = 0)
    ∧ 0 ≤ compute_distance a b := by
  constructor
  · intro h
    unfold compute_overlap_ratio at h
    simp only [] at h
    by_cases hu : (a.width * a.height) + (b.width * b.height)
        - (max 0 (min a.max_x b.max_x - max a.min_x b.min_x))
          * (max 0 (min a.max_y b.max_y - max a.min_y b.min_y)) ≤ 0
    · rw [if_pos hu] at h
      exact absurd h (lt_irrefl 0)
    · rw [if_neg hu] at h
      push_neg at hu
      have hinter : 0 < (max 0 (min a.max_x b.max_x - max a.min_x b.min_x))
          * (max 0 (min a.max_y b.max_y - max a.min_y b.min_y)) := by
        by_contra hcon
        push_neg at hcon
        have hdiv : (max 0 (min a.max_x b.max_x - max a.min_x b.min_x))
            * (max 0 (min a.max_y b.max_y - max a.min_y b.min_y))
            / ((a.width * a.height) + (b.width * b.height)
              - (max 0 (min a.max_x b.max_x - max a.min_x b.min_x))
                * (max 0 (min a.max_y b.max_y - max a.min_y b.min_y))) ≤ 0 :=
          div_nonpos_of_nonpos_of_nonneg hcon (le_of_lt hu)
        exact absurd (lt_of_lt_of_le h hdiv) (lt_irrefl 0)
      have hx : 0 < min a.max_x b.max_x - max a.min_x b.min_x := by
        rcases lt_or_le 0 (min a.max_x b.max_x - max a.min_x b.min_x) with hx | hx
        · exact hx
        · exfalso
          rw [max_eq_left hx, zero_mul] at hinter
          exact absurd hinter (lt_irrefl 0)
      have hy : 0 < min a.max_y b.max_y - max a.min_y b.min_y := by
        rcases lt_or_le 0 (min a.max_y b.max_y - max a.min_y b.min_y) with hy | hy
        · exact hy
        · exfalso
          rw [max_eq_left hy, mul_zero] at hinter
          exact absurd hinter (lt_irrefl 0)
      unfold compute_distance
      rw [if_pos ⟨hx, hy⟩]
  · unfold compute_distance
    by_cases hov : 0 < min a.max_x b.max_x - max a.min_x b.min_x
        ∧ 0 < min a.max_y b.max_y - max a.min_y b.min_y
    · rw [if_pos hov]
    · rw [if_neg hov]
      exact Real.sqrt_nonneg _

/-- Witness for C9 at a concrete overlapping pair. -/
theorem claim9_witness :
    0 < compute_overlap_ratio unitBox unitBox
    ∧ compute_distance unitBox unitBox = 0 := by
  have h : 0 < compute_overlap_ratio unitBox unitBox := by
    norm_num [compute_overlap_ratio, unitBox]
  exact ⟨h, (claim9_overlap_zero_distance unitBox unitBox).1 h⟩

/-! ## Repair loop: termination, validation-call bound, best tracking -/

/-- The number of validation calls equals the number of attempts. -/
theorem repairAux_count (vf : LLMResponse → ValidationResult)
    (gen : ℕ → Option LLMResponse) (maxIter : ℕ) :
    ∀ (fuel iteration : ℕ) (response bestR : LLMResponse) (bestScore : ℚ),
    (repairAux vf gen maxIter iteration fuel response bestR bestScore).2
      = (attemptsAux vf gen maxIter iteration fuel response).length := by
  intro fuel
  induction fuel with
  | zero => intro iteration response bestR bestScore; simp [repairAux, attemptsAux]
  | succ n ih =>
    intro iteration response bestR bestScore
    rw [repairAux, attemptsAux]
    by_cases hv : (vf response).valid
    · simp [hv]
    · by_cases hi : iteration < maxIter
      · simp only [hv, hi, if_true, if_false, Bool.false_eq_true]
        cases hg : gen iteration with
        | none => simp
        | some regenerated => simp [ih]
      · simp [hv, hi]

theorem attemptsAux_length_le (vf : LLMResponse → ValidationResult)
    (gen : ℕ → Option LLMResponse) (maxIter : ℕ) :
    ∀ (fuel iteration : ℕ) (response : LLMResponse),
    (attemptsAux vf gen maxIter iteration fuel response).length ≤ fuel := by
  intro fuel
  induction fuel with
  | zero => intro iteration response; simp [attemptsAux]
  | succ n ih =>
    intro iteration response
    rw [attemptsAux]
    by_cases hv : (vf response).valid
    · simp [hv]
    · by_cases hi : iteration < maxIter
      · simp only [hv, hi, if_true, if_false, Bool.false_eq_true, List.length_cons]
        cases hg : gen iteration with
        | none => simp
        | some regenerated => simpa using ih (iteration + 1) regenerated
      · simp [hv, hi]

/-- `find?` returns the first element satisfying the predicate. -/
theorem find?_eq_of_first {α : Type} (p : α → Bool) :
    ∀ (l : List α) (k : ℕ) (a : α), l.get? k = some a → p a = true →
    (∀ j b, j < k → l.get? j = some b → p b = false) →
    l.find? p = some a := by
  intro l
  induction l with
  | nil => intro k a hget; simp at hget
  | cons x xs ih =>
    intro k a hget hp hbefore
    cases k with
    | zero =>
      simp only [List.get?_cons_zero, Option.some.injEq] at hget
      subst hget
      exact List.find?_cons_of_pos _ hp
    | succ k' =>
      have hx : p x = false := hbefore 0 x (Nat.succ_pos _) rfl
      rw [List.find?_cons_of_neg _ (by simp [hx])]
      exact ih k' a (by simpa using hget) hp
        (fun j b hj hb => hbefore (j + 1) b (by omega) (by simpa using hb))

/-- The strict-update fold from `(x, score x)` selects the earliest maximal
element of `x :: l`. -/
theorem bestStep_foldl_spec (score : LLMResponse → ℚ) :
    ∀ (l : List LLMResponse) (x : LLMResponse),
    IsEarliestMax score (x :: l) ((l.foldl (bestStep score) (x, score x)).1) := by
  intro l
  induction l with
  | nil =>
    intro x
    exact ⟨0, rfl, by simp, by simp⟩
  | cons y ys ih =>
    intro x
    rw [List.foldl_cons]
    by_cases h : score x < score y
    · have hstep : bestStep score (x, score x) y = (y, score y) := by
        simp [bestStep, h]
      rw [hstep]
      obtain ⟨k, hget, htake, hall⟩ := ih y
      have hy_le : score y ≤ score ((ys.foldl (bestStep score) (y, score y)).1) :=
        hall y (List.mem_cons_self _ _)
      exact ⟨k + 1, by simpa using hget,
        by
          rw [List.take_succ_cons]
          intro a ha
          rcases List.mem_cons.mp ha with rfl | ha
          · exact lt_of_lt_of_le h hy_le
          · exact htake a ha,
        by
          intro a ha
          rcases List.mem_cons.mp ha with rfl | ha
          · exact le_of_lt (lt_of_lt_of_le h hy_le)
          · exact hall a ha⟩
    · have hstep : bestStep score (x, score x) y = (x, score x) := by
        simp [bestStep, h]
      rw [hstep]
      obtain ⟨k, hget, htake, hall⟩ := ih x
      have hx_le : score x ≤ score ((ys.foldl (bestStep score) (x, score x)).1) :=
        hall x (List.mem_cons_self _ _)
      have hy_le : score y ≤ score x := le_of_not_lt h
      cases k with
      | zero =>
        simp only [List.get?_cons_zero, Option.some.injEq] at hget
        refine ⟨0, by simpa using hget, by simp, ?_⟩
        intro a ha
        rcases List.mem_cons.mp ha with rfl | ha
        · exact hall a (List.mem_cons_self _ _)
        · rcases List.mem_cons.mp ha with rfl | ha
          · exact le_trans hy_le hx_le
          · exact hall a (List.mem_cons_of_mem _ ha)
      | succ k' =>
        have hx_lt : score x < score ((ys.foldl (bestStep score) (x, score x)).1) := by
          apply htake
          rw [List.take_succ_cons]
          exact List.mem_cons_self _ _
        refine ⟨k' + 2, by simpa using hget, ?_, ?_⟩
        · rw [List.take_succ_cons, List.take_succ_cons]
          intro a ha
          rcases List.mem_cons.mp ha with rfl | ha
          · exact hx_lt
          · rcases List.mem_cons.mp ha with rfl | ha
            · exact lt_of_le_of_lt hy_le hx_lt
            · apply htake
              rw [List.take_succ_cons]
              exact List.mem_cons_of_mem _ ha
        · intro a ha
          rcases List.mem_cons.mp ha with rfl | ha
          · exact hall a (List.mem_cons_self _ _)
          · rcases List.mem_cons.mp ha with rfl | ha
            · exact le_trans hy_le (le_of_lt hx_lt)
            · exact hall a (List.mem_cons_of_mem _ ha)

/-- The response the loop returns: the first valid attempt when one exists,
otherwise the strict-update fold of the best tracking over all attempts. -/
theorem repairAux_result_spec (vf : LLMResponse → ValidationResult)
    (gen : ℕ → Option LLMResponse) (maxIter : ℕ) :
    ∀ (fuel iteration : ℕ) (response bestR : LLMResponse) (bestScore : ℚ),
    (repairAux vf gen maxIter iteration fuel response bestR bestScore).1
      = match (attemptsAux vf gen maxIter iteration fuel response).find?
            (fun a => (vf a).valid) with
        | some a => a
        | none =>
          ((attemptsAux vf gen maxIter iteration fuel response).foldl
            (bestStep (fun a => (vf a).score)) (bestR, bestScore)).1 := by
  intro fuel
  induction fuel with
  | zero => intro iteration response bestR bestScore; simp [repairAux, attemptsAux]
  | succ n ih =>
    intro iteration response bestR bestScore
    rw [repairAux, attemptsAux]
    by_cases hv : (vf response).valid
    · simp only [hv, if_true]
      rw [List.find?_cons_of_pos _ (by simpa using hv)]
    · rw [List.find?_cons_of_neg _ (by simpa using hv)]
      by_cases hi : iteration < maxIter
      · simp only [hv, hi, if_true, if_false, Bool.false_eq_true]
        cases hg : gen iteration with
        | none => simp [List.foldl_cons]
        | some regenerated =>
          simp only []
          rw [ih]
          rw [List.foldl_cons]
      · simp [hv, hi, List.foldl_cons]

/-- C2: for every validator behavior, every generator behavior (including a
generator that always fails), every initial response and every
`max_iterations`, the repair loop performs at most `max_iterations + 1`
validation calls; with an always-failing generator it performs exactly one
validation call and still returns a result (the initial response), i.e. a
regeneration failure ends the loop early instead of raising. -/
theorem claim2_repair_loop_terminates (vf : LLMResponse → ValidationResult)
    (gen : ℕ → Option LLMResponse) (response : LLMResponse) (max_iterations : ℕ) :
    (validateAndRepair vf gen response max_iterations).2 ≤ max_iterations + 1
    ∧ (validateAndRepair vf (fun _ => none) response max_iterations).2 = 1
    ∧ (validateAndRepair vf (fun _ => none) response max_iterations).1 = response := by
  refine ⟨?_, ?_, ?_⟩
  · rw [validateAndRepair, repairAux_count]
    exact attemptsAux_length_le vf gen max_iterations _ _ _
  · rw [validateAndRepair, repairAux]
    by_cases hv : (vf response).valid
    · simp [hv]
    · by_cases hi : 0 < max_iterations
      · simp [hv, hi]
      · simp [hv, hi]
  · rw [validateAndRepair, repairAux]
    by_cases hv : (vf response).valid
    · simp [hv]
    · by_cases hi : 0 < max_iterations
      · simp only [hv, hi, if_true, if_false, Bool.false_eq_true]
        unfold bestStep
        by_cases hs : (0:ℚ) < (vf response).score <;> simp [hs]
      · simp only [hv, hi, if_false, Bool.false_eq_true]
        unfold bestStep
        by_cases hs : (0:ℚ) < (vf response).score <;> simp [hs]

/-- C3: if some attempt validates, the earliest valid attempt is returned;
otherwise the loop returns the earliest attempt attaining the highest
validation score among all validated attempts.  The hypothesis that scores
are nonnegative holds for the real validator (its score is
`max 0 (…)`). -/
theorem claim3_returns_best (vf : LLMResponse → ValidationResult)
    (gen : ℕ → Option LLMResponse) (response : LLMResponse) (max_iterations : ℕ)
    (hnonneg : ∀ r, 0 ≤ (vf r).score) :
    (∀ k a, (validatedAttempts vf gen response max_iterations).get? k = some a →
      (vf a).valid = true →
      (∀ j b, j < k →
        (validatedAttempts vf gen response max_iterations).get? j = some b →
        (vf b).valid = false) →
      (validateAndRepair vf gen response max_iterations).1 = a)
    ∧ ((∀ a ∈ validatedAttempts vf gen response max_iterations, (vf a).valid = false) →
      IsEarliestMax (fun a => (vf a).score)
        (validatedAttempts vf gen response max_iterations)
        (validateAndRepair vf gen response max_iterations).1) := by
  constructor
  · intro k a hget hp hbefore
    rw [validateAndRepair, repairAux_result_spec]
    have hfind : (attemptsAux vf gen max_iterations 0 (max_iterations + 1)
        response).find? (fun x => (vf x).valid) = some a :=
      find?_eq_of_first (fun x => (vf x).valid) _ k a hget hp hbefore
    simp only [hfind]
  · intro hnone
    rw [validateAndRepair, repairAux_result_spec]
    have hfind : (attemptsAux vf gen max_iterations 0 (max_iterations + 1)
        response).find? (fun a => (vf a).valid) = none := by
      rw [List.find?_eq_none]
      intro a ha
      simpa using hnone a ha
    simp only [hfind]
    have hcons : attemptsAux vf gen max_iterations 0 (max_iterations + 1) response
        = response ::
          (if (vf response).valid then []
           else if 0 < max_iterations then
             match gen 0 with
             | some regenerated => attemptsAux vf gen max_iterations 1 max_iterations regenerated
             | none => []
           else []) := by
      rw [attemptsAux]
    unfold validatedAttempts
    rw [hcons, List.foldl_cons]
    have hstep : bestStep (fun a => (vf a).score) (response, 0) response
        = (response, (vf response).score) := by
      unfold bestStep
      by_cases hs : (0:ℚ) < (vf response).score
      · simp [hs]
      · have : (vf response).score = 0 :=
          le_antisymm (not_lt.mp hs) (hnonneg response)
        simp [hs, this]
    rw [hstep]
    exact bestStep_foldl_spec (fun a => (vf a).score) _ response

/-- The validator's score is always nonnegative (used to discharge the
hypothesis of the repair-loop best-tracking theorem). -/
theorem validate_score_nonneg (min_spacing max_overlap_ratio : ℚ)
    (strokes : List (List (ℚ × ℚ))) (labels : List (String × String))
    (anchors : List (String × AnchorVal))
    (existing_strokes : List (List (ℚ × ℚ))) (instruction : String) :
    0 ≤ (validate min_spacing max_overlap_ratio strokes labels anchors
        existing_strokes instruction).score := by
  rw [validate_score_closed]
  exact le_max_left _ _

/-- Witness for C3: the hypothesis is discharged with the real validator
bound to an empty canvas. -/
theorem claim3_witness :
    (∀ k a, (validatedAttempts
        (fun r => validate (5/100) (1/10) r.strokes r.labels r.anchors [] "")
        (fun _ => none) ⟨[], [], [], ""⟩ 2).get? k = some a →
      ((fun r => validate (5/100) (1/10) r.strokes r.labels r.anchors [] "") a).valid = true →
      (∀ j b, j < k →
        (validatedAttempts
          (fun r => validate (5/100) (1/10) r.strokes r.labels r.anchors [] "")
          (fun _ => none) ⟨[], [], [], ""⟩ 2).get? j = some b →
        ((fun r => validate (5/100) (1/10) r.strokes r.labels r.anchors [] "") b).valid = false) →
      (validateAndRepair
        (fun r => validate (5/100) (1/10) r.strokes r.labels r.anchors [] "")
        (fun _ => none) ⟨[], [], [], ""⟩ 2).1 = a)
    ∧ ((∀ a ∈ validatedAttempts
          (fun r => validate (5/100) (1/10) r.strokes r.labels r.anchors [] "")
          (fun _ => none) ⟨[], [], [], ""⟩ 2,
        ((fun r => validate (5/100) (1/10) r.strokes r.labels r.anchors [] "") a).valid = false) →
      IsEarliestMax
        (fun a => ((fun r => validate (5/100) (1/10) r.strokes r.labels r.anchors [] "") a).score)
        (validatedAttempts
          (fun r => validate (5/100) (1/10) r.strokes r.labels r.anchors [] "")
          (fun _ => none) ⟨[], [], [], ""⟩ 2)
        (validateAndRepair
          (fun r => validate (5/100) (1/10) r.strokes r.labels r.anchors [] "")
          (fun _ => none) ⟨[], [], [], ""⟩ 2).1) :=
  claim3_returns_best
    (fun r => validate (5/100) (1/10) r.strokes r.labels r.anchors [] "")
    (fun _ => none) ⟨[], [], [], ""⟩ 2
    (fun r => validate_score_nonneg (5/100) (1/10) r.strokes r.labels r.anchors [] "")

/-! ## Coordinate normalizer (claim C7) -/

/-- Any error raised by the per-stroke loop is the type error. -/
theorem validateClampStroke_error_msg :
    ∀ (stroke : List (Coord × Coord)) (e : String),
    validateClampStroke stroke = Except.error e → e = "Invalid coordinate type" := by
  intro stroke
  induction stroke with
  | nil => intro e h; simp [validateClampStroke] at h
  | cons c rest ih =>
    intro e h
    obtain ⟨cx, cy⟩ := c
    cases cx with
    | nonNumeric t =>
      have h' : (Except.error "Invalid coordinate type"
          : Except String (List (ℚ × ℚ))) = Except.error e := h
      injection h' with h''
      exact h''.symm
    | num x =>
      cases cy with
      | nonNumeric t =>
        have h' : (Except.error "Invalid coordinate type"
            : Except String (List (ℚ × ℚ))) = Except.error e := h
        injection h' with h''
        exact h''.symm
      | num y =>
        cases hrec : validateClampStroke rest with
        | ok tail =>
          have hcons : validateClampStroke ((Coord.num x, Coord.num y) :: rest)
              = Except.ok (clamp_normalized x y :: tail) := by
            rw [validateClampStroke, hrec]
          rw [hcons] at h
          cases h
        | error e2 =>
          have hcons : validateClampStroke ((Coord.num x, Coord.num y) :: rest)
              = Except.error e2 := by
            rw [validateClampStroke, hrec]
          rw [hcons] at h
          injection h with h2
          exact h2 ▸ ih e2 hrec

/-- The per-stroke loop succeeds exactly on all-numeric input. -/
theorem validateClampStroke_isOk (stroke : List (Coord × Coord)) :
    (validateClampStroke stroke).isOk
      = stroke.all (fun c => numericCoord c.1 && numericCoord c.2) := by
  induction stroke with
  | nil => rfl
  | cons c rest ih =>
    obtain ⟨cx, cy⟩ := c
    cases cx with
    | nonNumeric t => rfl
    | num x =>
      cases cy with
      | nonNumeric t => rfl
      | num y =>
        cases hrec : validateClampStroke rest with
        | ok tail =>
          have hcons : validateClampStroke ((Coord.num x, Coord.num y) :: rest)
              = Except.ok (clamp_normalized x y :: tail) := by
            rw [validateClampStroke, hrec]
          rw [hrec] at ih
          rw [hcons, List.all_cons, ← ih]
          rfl
        | error e2 =>
          have hcons : validateClampStroke ((Coord.num x, Coord.num y) :: rest)
              = Except.error e2 := by
            rw [validateClampStroke, hrec]
          rw [hrec] at ih
          rw [hcons, List.all_cons, ← ih]
          rfl

theorem validateClampStroke_error_iff (stroke : List (Coord × Coord)) :
    validateClampStroke stroke = Except.error "Invalid coordinate type"
      ↔ stroke.all (fun c => numericCoord c.1 && numericCoord c.2) = false := by
  constructor
  · intro h
    have hok := validateClampStroke_isOk stroke
    rw [h] at hok
    simpa [Except.isOk, Except.toBool] using hok.symm
  · intro h
    have hok := validateClampStroke_isOk stroke
    rw [h] at hok
    cases hres : validateClampStroke stroke with
    | ok v => rw [hres] at hok; simp [Except.isOk, Except.toBool] at hok
    | error e =>
      exact congrArg Except.error (validateClampStroke_error_msg stroke e hres)

/-- The per-stroke loop on all-numeric input returns the clamped points. -/
theorem validateClampStroke_num (qs : List (ℚ × ℚ)) :
    validateClampStroke (qs.map (fun p => (Coord.num p.1, Coord.num p.2)))
      = Except.ok (qs.map (fun p => clamp_normalized p.1 p.2)) := by
  induction qs with
  | nil => rfl
  | cons p rest ih =>
    rw [List.map_cons, List.map_cons, validateClampStroke, ih]

/-- C7: `validate_and_clamp_coordinates` raises exactly when some coordinate
is non-numeric; on all-numeric input it returns the same shape with every
coordinate independently clamped into [0,1]; clamping leaves in-range
coordinates unchanged. -/
theorem claim7_validate_and_clamp (strokes : List (List (Coord × Coord))) :
    (validate_and_clamp_coordinates strokes = Except.error "Invalid coordinate type"
      ↔ allNumeric strokes = false)
    ∧ (∀ qs : List (List (ℚ × ℚ)), strokes = numStrokes qs →
        validate_and_clamp_coordinates strokes
          = Except.ok (qs.map (List.map (fun p => clamp_normalized p.1 p.2))))
    ∧ (∀ x y : ℚ, 0 ≤ x → x ≤ 1 → 0 ≤ y → y ≤ 1 →
        clamp_normalized x y = (x, y)) := by
  refine ⟨?_, ?_, ?_⟩
  · induction strokes with
    | nil => simp [validate_and_clamp_coordinates, allNumeric]
    | cons s rest ih =>
      rw [validate_and_clamp_coordinates]
      cases hs : validateClampStroke s with
      | error e =>
        have he := validateClampStroke_error_msg s e hs
        subst he
        have hall : s.all (fun c => numericCoord c.1 && numericCoord c.2) = false :=
          (validateClampStroke_error_iff s).mp hs
        simp [allNumeric, hall]
      | ok vs =>
        have hok : s.all (fun c => numericCoord c.1 && numericCoord c.2) = true := by
          have := validateClampStroke_isOk s
          rw [hs] at this
          simpa [Except.isOk, Except.toBool] using this.symm
        cases hrest : validate_and_clamp_coordinates rest with
        | error e =>
          rw [hrest] at ih
          simp only [allNumeric, List.all_cons, hok, Bool.true_and] at ih ⊢
          exact ih
        | ok vrest =>
          rw [hrest] at ih
          simp only [allNumeric, List.all_cons, hok, Bool.true_and] at ih ⊢
          simpa using ih
  · intro qs hqs
    subst hqs
    induction qs with
    | nil => rfl
    | cons s rest ih =>
      rw [numStrokes, List.map_cons, List.map_cons, validate_and_clamp_coordinates,
        validateClampStroke_num]
      rw [numStrokes] at ih
      rw [ih]
  · intro x y hx0 hx1 hy0 hy1
    unfold clamp_normalized
    rw [min_eq_right hx1, max_eq_right hx0, min_eq_right hy1, max_eq_right hy0]

/-- Witness for C7: a non-numeric coordinate raises; numeric out-of-range
input is clamped; in-range input is untouched. -/
theorem claim7_witness :
    (validate_and_clamp_coordinates [[(Coord.num 0, Coord.nonNumeric "None")]]
        = Except.error "Invalid coordinate type"
      ↔ allNumeric [[(Coord.num 0, Coord.nonNumeric "None")]] = false)
    ∧ ([[(Coord.num (1/2), Coord.num (1/4))]] = numStrokes [[(1/2, 1/4)]] →
        validate_and_clamp_coordinates [[(Coord.num (1/2), Coord.num (1/4))]]
          = Except.ok ([[(1/2, 1/4)]].map
              (List.map (fun p => clamp_normalized p.1 p.2))))
    ∧ ((0:ℚ) ≤ 1/2 → (1/2:ℚ) ≤ 1 → (0:ℚ) ≤ 1/4 → (1/4:ℚ) ≤ 1 →
        clamp_normalized (1/2) (1/4) = (1/2, 1/4)) :=
  ⟨(claim7_validate_and_clamp [[(Coord.num 0, Coord.nonNumeric "None")]]).1,
   fun h => (claim7_validate_and_clamp _).2.1 [[(1/2, 1/4)]] h,
   fun h1 h2 h3 h4 => (claim7_validate_and_clamp []).2.2 (1/2) (1/4) h1 h2 h3 h4⟩

/-! ## Serialization round trip (claim C4) -/

theorem le_foldl_max : ∀ (l : List ℕ) (i a : ℕ), a = i ∨ a ∈ l → a ≤ l.foldl max i := by
  intro l
  induction l with
  | nil =>
    intro i a h
    rcases h with rfl | h
    · exact le_refl _
    · simp at h
  | cons x xs ih =>
    intro i a h
    rw [List.foldl_cons]
    rcases h with rfl | h
    · exact le_trans (le_max_left _ _) (ih (max a x) (max a x) (Or.inl rfl))
    · rcases List.mem_cons.mp h with rfl | h
      · exact le_trans (le_max_right _ _) (ih (max i a) (max i a) (Or.inl rfl))
      · exact ih (max i x) a (Or.inr h)

/-- C4 counterexample: a preview-state stroke does not survive the
`to_dict`/`from_dict` round trip — it comes back "confirmed", so the round
trip does not reproduce the lifecycle state. -/
theorem claim4_counterexample :
    (DrawingMemory.from_dict previewMemory.to_dict).strokes_history.map Stroke.state
        = ["confirmed"]
    ∧ previewMemory.strokes_history.map Stroke.state = ["preview"]
    ∧ DrawingMemory.from_dict previewMemory.to_dict ≠ previewMemory := by
  refine ⟨rfl, rfl, fun h => ?_⟩
  have hstates := congrArg (fun mm => mm.strokes_history.map Stroke.state) h
  have h1 : (DrawingMemory.from_dict previewMemory.to_dict).strokes_history.map
      Stroke.state = ["confirmed"] := rfl
  have h2 : previewMemory.strokes_history.map Stroke.state = ["preview"] := rfl
  simp only [h1, h2] at hstates
  exact absurd hstates (by decide)

/-- C4 (amended): the round trip reproduces every stroke's id, points and
label, the features and anchors maps and the last position exactly, but
resets every stroke's lifecycle state to "confirmed"; the rebuilt
next-stroke-id counter exceeds every stored id, so ids of stored strokes
stay unique when new strokes are added after the round trip. -/
theorem claim4_roundtrip (m : DrawingMemory) :
    (DrawingMemory.from_dict m.to_dict).strokes_history.map
        (fun s => (s.id, s.points, s.label))
      = m.strokes_history.map (fun s => (s.id, s.points, s.label))
    ∧ (∀ s ∈ (DrawingMemory.from_dict m.to_dict).strokes_history,
        s.state = "confirmed")
    ∧ (DrawingMemory.from_dict m.to_dict).features = m.features
    ∧ (DrawingMemory.from_dict m.to_dict).anchors = m.anchors
    ∧ (DrawingMemory.from_dict m.to_dict).last_position = m.last_position
    ∧ ∀ s ∈ (DrawingMemory.from_dict m.to_dict).strokes_history,
        s.id < (DrawingMemory.from_dict m.to_dict).next_stroke_id := by
  refine ⟨?_, ?_, rfl, rfl, rfl, ?_⟩
  · unfold DrawingMemory.from_dict DrawingMemory.to_dict
    simp only [List.map_map]
    rfl
  · intro s hs
    unfold DrawingMemory.from_dict DrawingMemory.to_dict at hs
    simp only [List.map_map, List.mem_map, Function.comp] at hs
    obtain ⟨t, _, rfl⟩ := hs
    rfl
  · intro s hs
    have hstrokes : (DrawingMemory.from_dict m.to_dict).strokes_history
        = (m.to_dict.strokes_history).map
            (fun s => Stroke.mk s.id s.points s.label "confirmed") := rfl
    rcases hm : m.to_dict.strokes_history with _ | ⟨d, ds⟩
    · rw [hstrokes, hm] at hs
      simp at hs
    · rw [hstrokes, hm] at hs
      have hnext : (DrawingMemory.from_dict m.to_dict).next_stroke_id
          = ((ds.map (fun s => Stroke.mk s.id s.points s.label "confirmed")).map
              Stroke.id).foldl max d.id + 1 := by
        simp [DrawingMemory.from_dict, hm]
      rw [hnext]
      have hsid : s.id ∈ ((d :: ds).map
          (fun s => Stroke.mk s.id s.points s.label "confirmed")).map Stroke.id :=
        List.mem_map_of_mem Stroke.id hs
      simp only [List.map_cons, List.mem_cons] at hsid
      have hle : s.id ≤ ((ds.map
          (fun s => Stroke.mk s.id s.points s.label "confirmed")).map
            Stroke.id).foldl max d.id := by
        apply le_foldl_max
        rcases hsid with h | h
        · exact Or.inl h
        · exact Or.inr h
      omega

/-! ## Label-numbering machinery (`add_strokes`) -/

theorem baseLabel_no_underscore (s : String) : '_' ∉ (baseLabel s).toList := by
  intro hmem
  have hp := List.mem_takeWhile_imp hmem
  simp at hp

theorem baseLabel_eq_self (s : String) (h : s.toList.contains '_' = false) :
    baseLabel s = s := by
  unfold baseLabel
  have hall : s.toList.takeWhile (fun c => !(c == '_')) = s.toList := by
    rw [List.takeWhile_eq_self_iff]
    intro x hx
    simp only [Bool.not_eq_true']
    rw [beq_eq_false_iff_ne]
    intro heq
    subst heq
    rw [List.contains_eq_any_beq] at h
    have : s.toList.any (fun c => '_' == c) = true :=
      List.any_eq_true.mpr ⟨'_', hx, by simp⟩
    rw [this] at h
    cases h
  have hconv : s.toList.takeWhile (fun c => decide ¬(c = '_')) = s.toList := by
    rw [show (fun c : Char => decide ¬(c = '_')) = (fun c : Char => !(c == '_')) by
      funext c; by_cases hc : c = '_' <;> simp [hc]]
    exact hall
  rw [hconv]
  cases s
  rfl

theorem string_toList_append (a b : String) :
    (a ++ b).toList = a.toList ++ b.toList :=
  String.data_append a b

theorem baseLabel_append (b t : String) (hb : '_' ∉ b.toList) :
    baseLabel (b ++ "_" ++ t) = b := by
  unfold baseLabel
  have h1 : (b ++ "_" ++ t).toList = b.toList ++ '_' :: t.toList := by
    rw [string_toList_append, string_toList_append]
    simp
  rw [h1]
  have h2 : ∀ l1 : List Char, '_' ∉ l1 →
      List.takeWhile (fun c => decide ¬(c = '_')) (l1 ++ '_' :: t.toList) = l1 := by
    intro l1 h
    induction l1 with
    | nil => simp [List.takeWhile]
    | cons c cs ih =>
      rw [List.cons_append, List.takeWhile_cons]
      have hc : c ≠ '_' := fun hc => h (hc ▸ List.mem_cons_self c cs)
      rw [if_pos (by simp [hc])]
      rw [ih (fun hmem => h (List.mem_cons_of_mem _ hmem))]
  rw [h2 b.toList hb]
  cases b
  rfl

theorem numberedLabel_eq (base : String) (c : ℕ) :
    numberedLabel base c = base ++ "_" ++ toString (c + 1) := by
  unfold numberedLabel
  by_cases h : 0 < c
  · rw [if_pos h]
  · rw [if_neg h]
    have hc : c = 0 := by omega
    subst hc
    apply String.ext
    rw [show ((0:ℕ) + 1) = 1 from rfl]
    rw [show (toString (1:ℕ)) = "1" from rfl]
    show (base ++ "_1").data = ((base ++ "_") ++ "1").data
    rw [String.data_append, String.data_append, String.data_append]
    simp

theorem numberedLabel_not_empty (base : String) (c : ℕ) :
    (numberedLabel base c).isEmpty = false := by
  rw [numberedLabel_eq]
  by_contra hcon
  rw [Bool.not_eq_false, String.isEmpty_iff] at hcon
  have hd := congrArg String.data hcon
  rw [String.data_append, String.data_append] at hd
  simp at hd

theorem baseLabel_numberedLabel (base : String) (c : ℕ)
    (hb : '_' ∉ base.toList) :
    baseLabel (numberedLabel base c) = base := by
  rw [numberedLabel_eq]
  exact baseLabel_append base (toString (c + 1)) hb

/-- The base actually used by the loop equals `baseLabel`. -/
theorem loop_base_eq (label : String) :
    (if label.toList.contains '_' then baseLabel label else label)
      = baseLabel label := by
  by_cases h : label.toList.contains '_'
  · rw [if_pos h]
  · rw [if_neg h]
    exact (baseLabel_eq_self label (by simpa using h)).symm

theorem countBase_nil (b : String) : countBase [] b = 0 := rfl

theorem countBase_cons (s : Stroke) (hs : List Stroke) (b : String) :
    countBase (s :: hs) b
      = (if strokeHasBase b s then 1 else 0) + countBase hs b := by
  unfold countBase
  rw [List.filter_cons]
  by_cases hp : strokeHasBase b s
  · simp [hp]; omega
  · simp [hp]

theorem countBase_append (h : List Stroke) (s : Stroke) (b : String) :
    countBase (h ++ [s]) b
      = countBase h b + (if strokeHasBase b s then 1 else 0) := by
  unfold countBase
  rw [List.filter_append, List.length_append]
  congr 1
  rw [List.filter_cons]
  by_cases hp : strokeHasBase b s <;> simp [hp]

theorem foldl_countsStep (history : List Stroke) :
    ∀ (f : String → ℕ) (b : String),
    (history.foldl countsStep f) b = f b + countBase history b := by
  induction history with
  | nil => intro f b; simp [countBase]
  | cons s hs ih =>
    intro f b
    rw [List.foldl_cons, ih, countBase_cons]
    have hstep : countsStep f s b = f b + (if strokeHasBase b s then 1 else 0) := by
      unfold countsStep strokeHasBase
      cases hl : s.label with
      | none => simp
      | some l =>
        by_cases he : l.isEmpty
        · simp [he]
        · by_cases hb : b = baseLabel l
          · simp [he, hb]
          · simp [he, hb, Ne.symm hb]
    rw [hstep]
    omega

theorem initialCounts_spec (history : List Stroke) (b : String) :
    initialCounts history b = countBase history b := by
  unfold initialCounts
  rw [foldl_countsStep]
  omega

/-! ## Anchor-store machinery (claim C6) -/

theorem lookup_append_some {α : Type} (l1 l2 : List (String × α)) (k : String)
    (v : α) (h : l1.lookup k = some v) : (l1 ++ l2).lookup k = some v := by
  induction l1 with
  | nil => simp at h
  | cons kv rest ih =>
    obtain ⟨k', v'⟩ := kv
    rw [List.cons_append]
    cases hk : (k == k') with
    | true =>
      simp only [List.lookup_cons, hk] at h ⊢
      exact h
    | false =>
      simp only [List.lookup_cons, hk] at h ⊢
      exact ih h

theorem insertAnchorIfAbsent_preserves (a : List (String × AnchorVal))
    (kv : String × AnchorVal) (k : String) (v : AnchorVal)
    (h : a.lookup k = some v) :
    (insertAnchorIfAbsent a kv).lookup k = some v := by
  unfold insertAnchorIfAbsent
  by_cases hmem : (a.lookup kv.1).isSome
  · rw [if_pos hmem]; exact h
  · rw [if_neg hmem]; exact lookup_append_some a [kv] k v h

theorem foldl_insertAnchor_preserves (k : String) (v : AnchorVal) :
    ∀ (kvs : List (String × AnchorVal)) (a : List (String × AnchorVal)),
    a.lookup k = some v →
    (kvs.foldl insertAnchorIfAbsent a).lookup k = some v := by
  intro kvs
  induction kvs with
  | nil => intro a h; exact h
  | cons kv rest ih =>
    intro a h
    rw [List.foldl_cons]
    exact ih _ (insertAnchorIfAbsent_preserves a kv k v h)

theorem auto_gen_fields (m : DrawingMemory) (s : Stroke) (l : String) :
    (auto_generate_side_anchors m s l).strokes_history = m.strokes_history
    ∧ (auto_generate_side_anchors m s l).next_stroke_id = m.next_stroke_id
    ∧ (auto_generate_side_anchors m s l).features = m.features := by
  unfold auto_generate_side_anchors
  rcases hp : s.points with _ | ⟨p, ps⟩ <;> simp [hp]

theorem auto_gen_anchors_preserves (m : DrawingMemory) (s : Stroke)
    (l : String) (k : String) (v : AnchorVal)
    (h : m.anchors.lookup k = some v) :
    (auto_generate_side_anchors m s l).anchors.lookup k = some v := by
  unfold auto_generate_side_anchors
  rcases hp : s.points with _ | ⟨p, ps⟩
  · simpa [hp] using h
  · simp only [hp]
    exact foldl_insertAnchor_preserves k v _ _ h

theorem afterAnchors_fields (m1 : DrawingMemory) (s : Stroke) :
    (afterAnchors m1 s).strokes_history = m1.strokes_history
    ∧ (afterAnchors m1 s).next_stroke_id = m1.next_stroke_id
    ∧ (afterAnchors m1 s).features = m1.features := by
  unfold afterAnchors
  rcases hp : s.points with _ | ⟨p, ps⟩
  · simp [hp]
  · rcases hl : s.label with _ | lab
    · simp [hp, hl]
    · simp only [hp, hl]
      exact auto_gen_fields m1 s lab

theorem afterAnchors_anchors_preserves (m1 : DrawingMemory) (s : Stroke)
    (k : String) (v : AnchorVal) (h : m1.anchors.lookup k = some v) :
    (afterAnchors m1 s).anchors.lookup k = some v := by
  unfold afterAnchors
  rcases hp : s.points with _ | ⟨p, ps⟩
  · simpa [hp] using h
  · rcases hl : s.label with _ | lab
    · simpa [hp, hl] using h
    · simp only [hp, hl]
      exact auto_gen_anchors_preserves m1 s lab k v h

theorem afterLastPos_fields (m2 : DrawingMemory) (points : List (ℚ × ℚ)) :
    (afterLastPos m2 points).strokes_history = m2.strokes_history
    ∧ (afterLastPos m2 points).next_stroke_id = m2.next_stroke_id
    ∧ (afterLastPos m2 points).anchors = m2.anchors
    ∧ (afterLastPos m2 points).features = m2.features := by
  unfold afterLastPos
  cases hgl : points.getLast? <;> simp [hgl]

theorem stepMemory_history (labels : List (String × String)) (state : String)
    (counts : String → ℕ) (m : DrawingMemory) (i : ℕ)
    (points : List (ℚ × ℚ)) :
    (stepMemory labels state counts m i points).strokes_history
      = m.strokes_history
        ++ [⟨m.next_stroke_id, points, storedLabel labels counts i, state⟩] := by
  unfold stepMemory
  rw [(afterLastPos_fields _ _).1, (afterAnchors_fields _ _).1]

theorem stepMemory_next_id (labels : List (String × String)) (state : String)
    (counts : String → ℕ) (m : DrawingMemory) (i : ℕ)
    (points : List (ℚ × ℚ)) :
    (stepMemory labels state counts m i points).next_stroke_id
      = m.next_stroke_id + 1 := by
  unfold stepMemory
  rw [(afterLastPos_fields _ _).2.1, (afterAnchors_fields _ _).2.1]

theorem stepMemory_anchors_preserves (labels : List (String × String))
    (state : String) (counts : String → ℕ) (m : DrawingMemory) (i : ℕ)
    (points : List (ℚ × ℚ)) (k : String) (v : AnchorVal)
    (h : m.anchors.lookup k = some v) :
    (stepMemory labels state counts m i points).anchors.lookup k = some v := by
  unfold stepMemory
  rw [(afterLastPos_fields _ _).2.2.1]
  exact afterAnchors_anchors_preserves _ _ k v h

theorem addStrokesAux_anchors_preserves (labels : List (String × String))
    (state : String) (k : String) (v : AnchorVal) :
    ∀ (strokes : List (List (ℚ × ℚ))) (counts : String → ℕ)
      (m : DrawingMemory) (i : ℕ),
    m.anchors.lookup k = some v →
    ((addStrokesAux labels state counts m i strokes).1).anchors.lookup k = some v := by
  intro strokes
  induction strokes with
  | nil => intro counts m i h; exact h
  | cons points rest ih =>
    intro counts m i h
    rw [addStrokesAux]
    apply ih
    exact stepMemory_anchors_preserves labels state counts m i points k v h

/-- C6: committing the unit square at corners (0.4,0.4)-(0.6,0.6) labelled
"square" into an empty memory derives `square_1_center == (0.5, 0.5)` and
`square_1_top == (0.5, 0.6)`; and `add_strokes` never overwrites an anchor
that is already present. -/
theorem claim6_side_anchors (m : DrawingMemory)
    (strokes : List (List (ℚ × ℚ))) (labels : List (String × String))
    (state : String) (name : String) (v : AnchorVal)
    (hv : m.anchors.lookup name = some v) :
    ((DrawingMemory.empty.add_strokes
        [[(2/5, 2/5), (3/5, 2/5), (3/5, 3/5), (2/5, 3/5)]]
        [("stroke_0", "square")] "confirmed").1.anchors.lookup "square_1_center"
      = some (.point (1/2, 1/2))
    ∧ (DrawingMemory.empty.add_strokes
        [[(2/5, 2/5), (3/5, 2/5), (3/5, 3/5), (2/5, 3/5)]]
        [("stroke_0", "square")] "confirmed").1.anchors.lookup "square_1_top"
      = some (.point (1/2, 3/5)))
    ∧ (m.add_strokes strokes labels state).1.anchors.lookup name = some v := by
  refine ⟨⟨?_, ?_⟩, ?_⟩
  · simp +decide [DrawingMemory.add_strokes, addStrokesAux, DrawingMemory.empty,
      initialCounts, countsStep, labelFor, truthyStr, storedLabel, updatedCounts,
      numberedLabel, baseLabel, afterAnchors, afterLastPos,
      auto_generate_side_anchors, afterLastUnderscore, beforeLastUnderscore,
      isDigits, insertAnchorIfAbsent, List.lookup]
    norm_num [min_def, max_def]
  · simp +decide [DrawingMemory.add_strokes, addStrokesAux, DrawingMemory.empty,
      initialCounts, countsStep, labelFor, truthyStr, storedLabel, updatedCounts,
      numberedLabel, baseLabel, afterAnchors, afterLastPos,
      auto_generate_side_anchors, afterLastUnderscore, beforeLastUnderscore,
      isDigits, insertAnchorIfAbsent, List.lookup]
    norm_num [min_def, max_def]
  · exact addStrokesAux_anchors_preserves labels state name v strokes
      (initialCounts m.strokes_history) m 0 hv

/-- Witness for C6 at a concrete pre-existing anchor. -/
theorem claim6_witness :
    (DrawingMemory.mk [] [] [("square_1_top", AnchorVal.point (0, 0))]
        (1/2, 1/2) false 0 none).anchors.lookup "square_1_top"
      = some (AnchorVal.point (0, 0))
    ∧ ((DrawingMemory.mk [] [] [("square_1_top", AnchorVal.point (0, 0))]
        (1/2, 1/2) false 0 none).add_strokes
          [[(2/5, 2/5), (3/5, 2/5), (3/5, 3/5), (2/5, 3/5)]]
          [("stroke_0", "square")] "confirmed").1.anchors.lookup "square_1_top"
      = some (AnchorVal.point (0, 0)) := by
  have h : (DrawingMemory.mk [] [] [("square_1_top", AnchorVal.point (0, 0))]
      (1/2, 1/2) false 0 none).anchors.lookup "square_1_top"
      = some (AnchorVal.point (0, 0)) := by
    simp [List.lookup]
  exact ⟨h, ((claim6_side_anchors _
    [[(2/5, 2/5), (3/5, 2/5), (3/5, 3/5), (2/5, 3/5)]]
    [("stroke_0", "square")] "confirmed" "square_1_top"
    (AnchorVal.point (0, 0)) h).2)⟩

/-! ## Stroke-id assignment (claim C8) -/

theorem addStrokesAux_ids (labels : List (String × String)) (state : String) :
    ∀ (strokes : List (List (ℚ × ℚ))) (counts : String → ℕ)
      (m : DrawingMemory) (i : ℕ),
    (addStrokesAux labels state counts m i strokes).2
        = List.range' m.next_stroke_id strokes.length
    ∧ (addStrokesAux labels state counts m i strokes).1.next_stroke_id
        = m.next_stroke_id + strokes.length := by
  intro strokes
  induction strokes with
  | nil => intro counts m i; exact ⟨rfl, rfl⟩
  | cons points rest ih =>
    intro counts m i
    rw [addStrokesAux]
    obtain ⟨hids, hnext⟩ := ih (updatedCounts labels counts i)
      (stepMemory labels state counts m i points) (i + 1)
    constructor
    · show m.next_stroke_id :: _ = _
      rw [hids, stepMemory_next_id, List.length_cons, List.range'_succ]
    · show (addStrokesAux _ _ _ _ _ _).1.next_stroke_id = _
      rw [hnext, stepMemory_next_id, List.length_cons]
      omega

theorem popOnce_next_id (m : DrawingMemory) :
    (popOnce m).next_stroke_id = m.next_stroke_id := by
  unfold popOnce
  cases hgl : m.strokes_history.getLast? <;> simp [hgl]

theorem iterate_popOnce_next_id (r : ℕ) (m : DrawingMemory) :
    (popOnce^[r] m).next_stroke_id = m.next_stroke_id := by
  induction r generalizing m with
  | zero => rfl
  | succ n ih =>
    rw [Function.iterate_succ_apply]
    rw [ih (popOnce m), popOnce_next_id]

theorem undo_next_id (m : DrawingMemory) (count : ℕ) :
    (m.undo_last_strokes count).next_stroke_id = m.next_stroke_id := by
  unfold DrawingMemory.undo_last_strokes
  by_cases h : count = 0
  · rw [if_pos h]
  · rw [if_neg h]
    cases hgl : (popOnce^[min count m.strokes_history.length]
        m).strokes_history.getLast? with
    | none => simp only [hgl]; exact iterate_popOnce_next_id _ m
    | some s =>
      simp only [hgl]
      cases hpl : s.points.getLast? with
      | none => simp only [hpl]; exact iterate_popOnce_next_id _ m
      | some p => simp only [hpl]; exact iterate_popOnce_next_id _ m

theorem reject_next_id (m : DrawingMemory) :
    ((m.reject_preview_strokes).1).next_stroke_id = m.next_stroke_id := rfl

theorem applyOp_ids (m : DrawingMemory) (op : MemOp) :
    ((applyOp m op).2).Pairwise (· < ·)
    ∧ (∀ a ∈ (applyOp m op).2,
        m.next_stroke_id ≤ a ∧ a < (applyOp m op).1.next_stroke_id)
    ∧ m.next_stroke_id ≤ (applyOp m op).1.next_stroke_id := by
  cases op with
  | add strokes labels state =>
    obtain ⟨hids, hnext⟩ := addStrokesAux_ids labels state strokes
      (initialCounts m.strokes_history) m 0
    simp only [applyOp, DrawingMemory.add_strokes]
    refine ⟨?_, ?_, ?_⟩
    · rw [hids]
      exact List.pairwise_lt_range' _ _
    · intro a ha
      rw [hids, List.mem_range'] at ha
      obtain ⟨j, hj, rfl⟩ := ha
      rw [hnext]
      omega
    · rw [hnext]
      omega
  | undo count =>
    refine ⟨List.Pairwise.nil, ?_, ?_⟩
    · intro a ha; simp [applyOp] at ha
    · show m.next_stroke_id ≤ (m.undo_last_strokes count).next_stroke_id
      rw [undo_next_id]
  | reject =>
    refine ⟨List.Pairwise.nil, ?_, ?_⟩
    · intro a ha; simp [applyOp] at ha
    · show m.next_stroke_id ≤ ((m.reject_preview_strokes).1).next_stroke_id
      rw [reject_next_id]

theorem runOps_ids (ops : List MemOp) :
    ∀ (m : DrawingMemory),
    ((runOps m ops).2).Pairwise (· < ·)
    ∧ (∀ a ∈ (runOps m ops).2,
        m.next_stroke_id ≤ a ∧ a < (runOps m ops).1.next_stroke_id)
    ∧ m.next_stroke_id ≤ (runOps m ops).1.next_stroke_id := by
  induction ops with
  | nil =>
    intro m
    exact ⟨List.Pairwise.nil, fun a ha => by simp [runOps] at ha, le_refl _⟩
  | cons op ops ih =>
    intro m
    obtain ⟨hop_pw, hop_mem, hop_le⟩ := applyOp_ids m op
    obtain ⟨hrec_pw, hrec_mem, hrec_le⟩ := ih (applyOp m op).1
    rw [runOps]
    refine ⟨?_, ?_, ?_⟩
    · rw [List.pairwise_append]
      refine ⟨hop_pw, hrec_pw, ?_⟩
      intro a ha b hb
      exact lt_of_lt_of_le (hop_mem a ha).2 (hrec_mem b hb).1
    · intro a ha
      rcases List.mem_append.mp ha with ha | ha
      · exact ⟨(hop_mem a ha).1,
          lt_of_lt_of_le (hop_mem a ha).2 hrec_le⟩
      · exact ⟨le_trans hop_le (hrec_mem a ha).1, (hrec_mem a ha).2⟩
    · exact le_trans hop_le hrec_le

/-- C8: across any sequence of `add_strokes`, `undo_last_strokes` and
`reject_preview_strokes` operations, the ids handed out by `add_strokes`
form a strictly increasing sequence over the whole lifetime, so an id is
never assigned twice — even after the stroke holding it was removed by undo
or rejection. -/
theorem claim8_ids_never_reused (m : DrawingMemory) (ops : List MemOp) :
    ((runOps m ops).2).Pairwise (· < ·) ∧ ((runOps m ops).2).Nodup :=
  ⟨(runOps_ids ops m).1,
   ((runOps_ids ops m).1).imp (fun h => Nat.ne_of_lt h)⟩

/-! ## Label numbering through `add_strokes` (claims C5 and C10) -/

theorem truthyStr_not_empty (o : Option String) (s : String)
    (h : truthyStr o = some s) : s.isEmpty = false := by
  cases o with
  | none => cases h
  | some t =>
    by_cases he : t.isEmpty
    · rw [show truthyStr (some t) = none from by
        show (if t.isEmpty then none else some t) = none
        rw [if_pos he]] at h
      cases h
    · rw [show truthyStr (some t) = some t from by
        show (if t.isEmpty then none else some t) = some t
        rw [if_neg he]] at h
      cases h
      simpa using he

theorem labelFor_not_empty (labels : List (String × String)) (i : ℕ)
    (lab : String) (h : labelFor labels i = some lab) : lab.isEmpty = false := by
  unfold labelFor at h
  cases h1 : truthyStr (labels.lookup ("stroke_" ++ toString i)) with
  | some s =>
    rw [h1] at h
    cases h
    exact truthyStr_not_empty _ _ h1
  | none =>
    rw [h1] at h
    exact truthyStr_not_empty _ _ h

theorem storedLabel_some (labels : List (String × String))
    (counts : String → ℕ) (i : ℕ) (lab : String)
    (h : labelFor labels i = some lab) :
    storedLabel labels counts i
      = some (baseLabel lab ++ "_" ++ toString (counts (baseLabel lab) + 1)) := by
  unfold storedLabel
  rw [h]
  simp only [loop_base_eq]
  rw [numberedLabel_eq]

theorem storedLabel_none (labels : List (String × String))
    (counts : String → ℕ) (i : ℕ) (h : labelFor labels i = none) :
    storedLabel labels counts i = none := by
  unfold storedLabel
  rw [h]

theorem updatedCounts_some (labels : List (String × String))
    (counts : String → ℕ) (i : ℕ) (lab : String)
    (h : labelFor labels i = some lab) :
    updatedCounts labels counts i
      = fun b => if b = baseLabel lab then counts b + 1 else counts b := by
  unfold updatedCounts
  rw [h]
  simp only [loop_base_eq]

theorem updatedCounts_none (labels : List (String × String))
    (counts : String → ℕ) (i : ℕ) (h : labelFor labels i = none) :
    updatedCounts labels counts i = counts := by
  unfold updatedCounts
  rw [h]

/-- The threaded `shape_counts` stays equal to the per-base count of the
current history through one loop iteration. -/
theorem stepMemory_countBase (labels : List (String × String)) (state : String)
    (counts : String → ℕ) (m : DrawingMemory) (i : ℕ)
    (points : List (ℚ × ℚ))
    (hinv : ∀ b, counts b = countBase m.strokes_history b) :
    ∀ b, updatedCounts labels counts i b
      = countBase (stepMemory labels state counts m i points).strokes_history b := by
  intro b
  rw [stepMemory_history, countBase_append]
  cases hl : labelFor labels i with
  | none =>
    rw [updatedCounts_none labels counts i hl]
    have hsb : strokeHasBase b
        ⟨m.next_stroke_id, points, storedLabel labels counts i, state⟩ = false := by
      unfold strokeHasBase
      simp only [storedLabel_none labels counts i hl]
    rw [hsb]
    simp [hinv b]
  | some lab =>
    rw [updatedCounts_some labels counts i lab hl]
    have hstored := storedLabel_some labels counts i lab hl
    have hbase : baseLabel (baseLabel lab ++ "_"
        ++ toString (counts (baseLabel lab) + 1)) = baseLabel lab :=
      baseLabel_append _ _ (baseLabel_no_underscore lab)
    have hne : (baseLabel lab ++ "_"
        ++ toString (counts (baseLabel lab) + 1)).isEmpty = false := by
      rw [← numberedLabel_eq]
      exact numberedLabel_not_empty _ _
    have hsb : strokeHasBase b
        ⟨m.next_stroke_id, points, storedLabel labels counts i, state⟩
        = (baseLabel lab == b) := by
      unfold strokeHasBase
      simp only [hstored, hne, hbase, Bool.not_false, Bool.true_and]
    rw [hsb]
    by_cases hb : b = baseLabel lab
    · subst hb
      simp [hinv]
    · have hbeq : (baseLabel lab == b) = false := by
        rw [beq_eq_false_iff_ne]
        exact Ne.symm hb
      rw [hbeq]
      simp only [Bool.false_eq_true, if_false, Nat.add_zero]
      show (if b = baseLabel lab then counts b + 1 else counts b)
        = countBase m.strokes_history b
      rw [if_neg hb, hinv b]

/-- Main invariant lemma for the `add_strokes` loop: the previous history
is preserved unchanged as a prefix, and each new stroke with a truthy
supplied label `lab` is stored as `baseLabel lab ++ "_" ++ (k+1)` where `k`
is the number of strokes sharing that base in the full history at its
insertion time. -/
theorem addStrokesAux_labels_spec (labels : List (String × String))
    (state : String) :
    ∀ (strokes : List (List (ℚ × ℚ))) (counts : String → ℕ)
      (m : DrawingMemory) (i0 : ℕ),
    (∀ b, counts b = countBase m.strokes_history b) →
    ((addStrokesAux labels state counts m i0 strokes).1).strokes_history.take
        m.strokes_history.length = m.strokes_history
    ∧ ((addStrokesAux labels state counts m i0 strokes).1).strokes_history.length
        = m.strokes_history.length + strokes.length
    ∧ ∀ j, j < strokes.length → ∀ lab, labelFor labels (i0 + j) = some lab →
      (((addStrokesAux labels state counts m i0 strokes).1).strokes_history.get?
          (m.strokes_history.length + j)).map Stroke.label
        = some (some (baseLabel lab ++ "_"
            ++ toString (countBase
                (((addStrokesAux labels state counts m i0 strokes).1).strokes_history.take
                  (m.strokes_history.length + j)) (baseLabel lab) + 1))) := by
  intro strokes
  induction strokes with
  | nil =>
    intro counts m i0 hinv
    refine ⟨?_, by simp [addStrokesAux], ?_⟩
    · show m.strokes_history.take m.strokes_history.length = m.strokes_history
      exact List.take_length _
    · intro j hj
      simp at hj
  | cons points rest ih =>
    intro counts m i0 hinv
    rw [addStrokesAux]
    have hstep_hist := stepMemory_history labels state counts m i0 points
    have hstep_len : (stepMemory labels state counts m i0 points).strokes_history.length
        = m.strokes_history.length + 1 := by
      rw [hstep_hist, List.length_append, List.length_cons, List.length_nil]
    obtain ⟨Hpre, Hlen, Hlab⟩ := ih (updatedCounts labels counts i0)
      (stepMemory labels state counts m i0 points) (i0 + 1)
      (stepMemory_countBase labels state counts m i0 points hinv)
    have hres_pre : ((addStrokesAux labels state (updatedCounts labels counts i0)
        (stepMemory labels state counts m i0 points) (i0 + 1) rest).1).strokes_history.take
          m.strokes_history.length = m.strokes_history := by
      have h1 : ((addStrokesAux labels state (updatedCounts labels counts i0)
          (stepMemory labels state counts m i0 points) (i0 + 1) rest).1).strokes_history.take
            m.strokes_history.length
          = (((addStrokesAux labels state (updatedCounts labels counts i0)
              (stepMemory labels state counts m i0 points) (i0 + 1) rest).1).strokes_history.take
                (stepMemory labels state counts m i0 points).strokes_history.length).take
              m.strokes_history.length := by
        rw [List.take_take]
        congr 1
        rw [hstep_len]
        omega
      rw [h1, Hpre, hstep_hist]
      exact List.take_left _ _
    refine ⟨hres_pre, ?_, ?_⟩
    · show ((addStrokesAux _ _ _ _ _ _).1).strokes_history.length = _
      rw [Hlen, hstep_len, List.length_cons]
      omega
    · intro j hj lab hl
      cases j with
      | zero =>
        rw [Nat.add_zero] at hl ⊢
        have hget : ((addStrokesAux labels state (updatedCounts labels counts i0)
            (stepMemory labels state counts m i0 points) (i0 + 1) rest).1).strokes_history.get?
              m.strokes_history.length
            = some ⟨m.next_stroke_id, points, storedLabel labels counts i0, state⟩ := by
          have h2 : ((addStrokesAux labels state (updatedCounts labels counts i0)
              (stepMemory labels state counts m i0 points) (i0 + 1) rest).1).strokes_history.get?
                m.strokes_history.length
              = (((addStrokesAux labels state (updatedCounts labels counts i0)
                  (stepMemory labels state counts m i0 points) (i0 + 1) rest).1).strokes_history.take
                    (stepMemory labels state counts m i0 points).strokes_history.length).get?
                  m.strokes_history.length := by
            rw [List.get?_take]
            rw [hstep_len]
            omega
          rw [h2, Hpre, hstep_hist]
          exact List.get?_concat_length _ _
        show (((addStrokesAux labels state (updatedCounts labels counts i0)
            (stepMemory labels state counts m i0 points) (i0 + 1) rest).1).strokes_history.get?
              m.strokes_history.length).map Stroke.label
          = some (some (baseLabel lab ++ "_"
              ++ toString (countBase
                  (((addStrokesAux labels state (updatedCounts labels counts i0)
                    (stepMemory labels state counts m i0 points)
                    (i0 + 1) rest).1).strokes_history.take
                    m.strokes_history.length) (baseLabel lab) + 1)))
        rw [hget]
        rw [storedLabel_some labels counts i0 lab hl]
        rw [hres_pre]
        rw [hinv (baseLabel lab)]
        rfl
      | succ j' =>
        have hj' : j' < rest.length := by
          rw [List.length_cons] at hj
          omega
        have hl' : labelFor labels ((i0 + 1) + j') = some lab := by
          rw [show (i0 + 1) + j' = i0 + (j' + 1) by omega]
          exact hl
        have := Hlab j' hj' lab hl'
        rw [hstep_len] at this
        rw [show m.strokes_history.length + (j' + 1)
            = m.strokes_history.length + 1 + j' by omega]
        exact this

theorem popOnce_history (m : DrawingMemory) :
    (popOnce m).strokes_history = m.strokes_history.dropLast := by
  unfold popOnce
  cases hgl : m.strokes_history.getLast? with
  | none =>
    have : m.strokes_history = [] := List.getLast?_eq_none_iff.mp hgl
    simp [this]
  | some s => simp

theorem iterate_popOnce_prefix (r : ℕ) :
    ∀ (m : DrawingMemory),
    ∃ k, (popOnce^[r] m).strokes_history = m.strokes_history.take k := by
  induction r with
  | zero =>
    intro m
    exact ⟨m.strokes_history.length, (List.take_length _).symm⟩
  | succ n ih =>
    intro m
    rw [Function.iterate_succ_apply]
    obtain ⟨k, hk⟩ := ih (popOnce m)
    refine ⟨min k (m.strokes_history.length - 1), ?_⟩
    rw [hk, popOnce_history, List.dropLast_eq_take, List.take_take]

theorem undo_history_prefix (m : DrawingMemory) (count : ℕ) :
    ∃ k, (m.undo_last_strokes count).strokes_history = m.strokes_history.take k := by
  unfold DrawingMemory.undo_last_strokes
  by_cases h : count = 0
  · rw [if_pos h]
    exact ⟨m.strokes_history.length, (List.take_length _).symm⟩
  · rw [if_neg h]
    obtain ⟨k, hk⟩ :=
      iterate_popOnce_prefix (min count m.strokes_history.length) m
    cases hgl : (popOnce^[min count m.strokes_history.length]
        m).strokes_history.getLast? with
    | none => simp only [hgl]; exact ⟨k, hk⟩
    | some s =>
      simp only [hgl]
      cases hpl : s.points.getLast? with
      | none => simp only [hpl]; exact ⟨k, hk⟩
      | some p => simp only [hpl]; exact ⟨k, hk⟩

theorem reject_history (m : DrawingMemory) :
    ((m.reject_preview_strokes).1).strokes_history
      = m.strokes_history.filter (fun s => !(s.state == "preview")) := rfl

/-- C5: adding "square", "circle", "square" to an empty memory stores
labels square_1, circle_1, square_2; in general, the `j`-th stroke of a
batch with truthy supplied label `lab` is stored with label
`baseLabel lab ++ "_" ++ (k+1)` where `k` counts the strokes sharing that
base in the full history at its insertion time; the labels of
already-stored strokes are never changed by an insertion, and removals
(undo, preview rejection) keep surviving stroke records intact. -/
theorem claim5_label_numbering (m : DrawingMemory)
    (strokes : List (List (ℚ × ℚ))) (labels : List (String × String))
    (state : String) (j : ℕ) (lab : String) (count : ℕ)
    (hj : j < strokes.length) (hl : labelFor labels j = some lab) :
    ((DrawingMemory.empty.add_strokes [[(0, 0)], [(0, 0)], [(0, 0)]]
        [("stroke_0", "square"), ("stroke_1", "circle"), ("stroke_2", "square")]
        "confirmed").1.strokes_history.map Stroke.label
      = [some "square_1", some "circle_1", some "square_2"])
    ∧ (((m.add_strokes strokes labels state).1).strokes_history.get?
          (m.strokes_history.length + j)).map Stroke.label
        = some (some (baseLabel lab ++ "_"
            ++ toString (countBase
                (((m.add_strokes strokes labels state).1).strokes_history.take
                  (m.strokes_history.length + j)) (baseLabel lab) + 1)))
    ∧ ((m.add_strokes strokes labels state).1).strokes_history.take
        m.strokes_history.length = m.strokes_history
    ∧ (∃ k, (m.undo_last_strokes count).strokes_history
        = m.strokes_history.take k)
    ∧ ((m.reject_preview_strokes).1).strokes_history
        = m.strokes_history.filter (fun s => !(s.state == "preview")) := by
  have hinv : ∀ b, initialCounts m.strokes_history b
      = countBase m.strokes_history b := initialCounts_spec m.strokes_history
  obtain ⟨Hpre, _, Hlab⟩ := addStrokesAux_labels_spec labels state strokes
    (initialCounts m.strokes_history) m 0 hinv
  refine ⟨by decide, ?_, Hpre, undo_history_prefix m count, reject_history m⟩
  have := Hlab j hj lab (by simpa using hl)
  exact this

/-- Witness for C5 at a concrete single-stroke batch. -/
theorem claim5_witness :
    0 < ([[((0:ℚ), (0:ℚ))]] : List (List (ℚ × ℚ))).length
    ∧ labelFor [("stroke_0", "dog")] 0 = some "dog"
    ∧ (((DrawingMemory.empty.add_strokes [[(0, 0)]] [("stroke_0", "dog")]
          "confirmed").1).strokes_history.get?
            (DrawingMemory.empty.strokes_history.length + 0)).map Stroke.label
        = some (some (baseLabel "dog" ++ "_"
            ++ toString (countBase
                (((DrawingMemory.empty.add_strokes [[(0, 0)]] [("stroke_0", "dog")]
                  "confirmed").1).strokes_history.take
                  (DrawingMemory.empty.strokes_history.length + 0))
                (baseLabel "dog") + 1))) :=
  ⟨by decide, by decide,
   (claim5_label_numbering DrawingMemory.empty [[(0, 0)]] [("stroke_0", "dog")]
      "confirmed" 0 "dog" 0 (by decide) (by decide)).2.1⟩

/-- C10: the label actually stored for a stroke with a truthy supplied
label is exactly `base_k`, where `base` is the portion of the supplied
label before its first underscore and `k` the occurrence count at
insertion time — any supplied suffix after an underscore is discarded, so
"ear_left" and "ear_right" added in one batch are stored as "ear_1" and
"ear_2". -/
theorem claim10_suffix_replaced (m : DrawingMemory)
    (strokes : List (List (ℚ × ℚ))) (labels : List (String × String))
    (state : String) (j : ℕ) (lab : String)
    (hj : j < strokes.length) (hl : labelFor labels j = some lab) :
    ((DrawingMemory.empty.add_strokes [[(0, 0)], [(0, 0)]]
        [("stroke_0", "ear_left"), ("stroke_1", "ear_right")]
        "confirmed").1.strokes_history.map Stroke.label
      = [some "ear_1", some "ear_2"])
    ∧ baseLabel "ear_left" = "ear"
    ∧ baseLabel "ear_right" = "ear"
    ∧ (((m.add_strokes strokes labels state).1).strokes_history.get?
          (m.strokes_history.length + j)).map Stroke.label
        = some (some (baseLabel lab ++ "_"
            ++ toString (countBase
                (((m.add_strokes strokes labels state).1).strokes_history.take
                  (m.strokes_history.length + j)) (baseLabel lab) + 1))) := by
  have hinv : ∀ b, initialCounts m.strokes_history b
      = countBase m.strokes_history b := initialCounts_spec m.strokes_history
  obtain ⟨_, _, Hlab⟩ := addStrokesAux_labels_spec labels state strokes
    (initialCounts m.strokes_history) m 0 hinv
  exact ⟨by decide, by decide, by decide, Hlab j hj lab (by simpa using hl)⟩

/-- Witness for C10: a supplied suffix "_big" is discarded. -/
theorem claim10_witness :
    0 < ([[((0:ℚ), (0:ℚ))]] : List (List (ℚ × ℚ))).length
    ∧ labelFor [("stroke_0", "cat_big")] 0 = some "cat_big"
    ∧ (((DrawingMemory.empty.add_strokes [[(0, 0)]] [("stroke_0", "cat_big")]
          "confirmed").1).strokes_history.get?
            (DrawingMemory.empty.strokes_history.length + 0)).map Stroke.label
        = some (some (baseLabel "cat_big" ++ "_"
            ++ toString (countBase
                (((DrawingMemory.empty.add_strokes [[(0, 0)]]
                  [("stroke_0", "cat_big")] "confirmed").1).strokes_history.take
                  (DrawingMemory.empty.strokes_history.length + 0))
                (baseLabel "cat_big") + 1))) :=
  ⟨by decide, by decide,
   (claim10_suffix_replaced DrawingMemory.empty [[(0, 0)]]
      [("stroke_0", "cat_big")] "confirmed" 0 "cat_big"
      (by decide) (by decide)).2.2.2⟩

end Spec2Proof
